import Mathlib

/-!
# Blunderbuss: the Dolt data-store connector

A shallow embedding of `internal/data/dolt` (metadata.go, server.go, schema.go) and of
the active-model listing of `internal/discovery` (models.go), together with the properties
that have been checked against them.

Conventions of the embedding
* A Go `string` is a Lean `String` (a sequence of Unicode scalar values); Go strings
  that are not valid UTF-8 are outside the model.
* A Go `int` is a Lean `Int`; the 64-bit range is made explicit where it matters
  (`Metadata.PortInRange`).
* A Go `error` built by `fmt.Errorf` is a `GoError`: its message and, when the format
  uses `%w`, the message of the error it wraps.
* Standard-library and driver behaviour the package relies on (the file system,
  `filepath.Join`, `strconv.Quote`, `encoding/json`, the MySQL driver's DSN codec) is
  modelled next to the function that calls it, after the library's documented behaviour.
-/

namespace Dolt

/-! ## metadata.go: the descriptor and the mode resolver -/

/-- Connection mode (`type Mode string` with its two constants). -/
inductive Mode where
  | EmbeddedMode
  | ServerMode
  deriving DecidableEq, Repr

/-- The string value of a `Mode` constant. -/
def Mode.toString : Mode → String
  | .EmbeddedMode => "embedded"
  | .ServerMode => "server"

/-- The parsed `.beads/metadata.json` file (`type Metadata struct`). -/
structure Metadata where
  Backend : String := ""
  DoltDatabase : String := ""
  DoltMode : String := ""
  ServerHost : String := ""
  ServerPort : Int := 0
  ServerUser : String := ""
  deriving DecidableEq, Repr

/-- `func (m *Metadata) ConnectionMode() Mode`. -/
def Metadata.ConnectionMode (m : Metadata) : Mode :=
  if m.DoltMode = "server" then Mode.ServerMode
  else if m.ServerHost ≠ "" ∧ m.ServerPort > 0 then Mode.ServerMode
  else Mode.EmbeddedMode

/-- `func (m *Metadata) IsValid() bool`. -/
def Metadata.IsValid (m : Metadata) : Bool :=
  m.DoltDatabase != ""

/-- A Go `int` is 64 bits wide: the values a `ServerPort` can really hold. -/
def Metadata.PortInRange (m : Metadata) : Prop :=
  -(2 : Int) ^ 63 ≤ m.ServerPort ∧ m.ServerPort < (2 : Int) ^ 63

instance (m : Metadata) : Decidable m.PortInRange := by
  unfold Metadata.PortInRange; exact inferInstance

/-! ## Errors -/

instance instDecidableEqExcept {ε α : Type} [DecidableEq ε] [DecidableEq α] :
    DecidableEq (Except ε α)
  | .ok a, .ok b => if h : a = b then isTrue (by rw [h]) else isFalse (by intro h2; cases h2; exact h rfl)
  | .error a, .error b =>
    if h : a = b then isTrue (by rw [h]) else isFalse (by intro h2; cases h2; exact h rfl)
  | .ok _, .error _ => isFalse (by intro h; cases h)
  | .error _, .ok _ => isFalse (by intro h; cases h)

/-- A Go `error` produced by `fmt.Errorf`: the message, and the message of the error
wrapped with `%w` (none when the format has no `%w`). -/
structure GoError where
  msg : String
  wrapped : Option String := none
  deriving DecidableEq, Repr

/-- `strings.Contains(s, sub)` as a proposition. -/
def Contains (s sub : String) : Prop := sub.data <:+: s.data

instance (s sub : String) : Decidable (Contains s sub) := by
  unfold Contains; exact inferInstance

/-- `strings.HasPrefix(s, p)` as a proposition. -/
def HasPrefix (s p : String) : Prop := p.data <+: s.data

instance (s p : String) : Decidable (HasPrefix s p) := by
  unfold HasPrefix; exact inferInstance

/-! ## The file system (package os) -/

/-- The system-call errors a read can end with (`syscall.Errno`). -/
inductive Errno where
  | ENOENT
  | EACCES
  | EISDIR
  | ENOTDIR
  | EMFILE
  deriving DecidableEq, Repr

/-- `Errno.Error()`: the text of a system-call error. -/
def Errno.Error : Errno → String
  | .ENOENT => "no such file or directory"
  | .EACCES => "permission denied"
  | .EISDIR => "is a directory"
  | .ENOTDIR => "not a directory"
  | .EMFILE => "too many open files"

/-- `fs.PathError`: the error `os.ReadFile` returns. -/
structure PathError where
  Op : String
  Path : String
  Err : Errno
  deriving DecidableEq, Repr

/-- `func (e *PathError) Error() string { return e.Op + " " + e.Path + ": " + e.Err.Error() }`. -/
def PathError.Error (e : PathError) : String :=
  e.Op ++ " " ++ e.Path ++ ": " ++ e.Err.Error

/-- `os.IsNotExist(err)`: on Unix, the underlying error is `ENOENT`. -/
def IsNotExist (e : PathError) : Bool :=
  e.Err = Errno.ENOENT

/-- What the file system holds at one path: a readable file, a path that cannot be
opened, or a path that opens and cannot be read. -/
inductive FileState where
  | file (content : String)
  | openFails (e : Errno)
  | readFails (e : Errno)
  deriving DecidableEq, Repr

/-- The file system: the state of every path. -/
abbrev FileSystem := String → FileState

/-- `os.ReadFile(name)`: the content, or a `PathError` naming the failed operation. -/
def ReadFile (fs : FileSystem) (name : String) : Except PathError String :=
  match fs name with
  | .file content => .ok content
  | .openFails e => .error { Op := "open", Path := name, Err := e }
  | .readFails e => .error { Op := "read", Path := name, Err := e }

/-! ## filepath.Join (package path/filepath, Unix) -/

/-- `strings.Split(s, sep)` for a one-character separator. -/
def splitChar (sep : Char) : List Char → List (List Char)
  | [] => [[]]
  | c :: cs =>
    if c = sep then [] :: splitChar sep cs
    else
      match splitChar sep cs with
      | [] => [[c]]
      | x :: xs => (c :: x) :: xs

/-- One element of the path in `filepath.Clean`: empty and "." elements are dropped,
".." removes the element before it (below the root it is dropped, at the start of a
relative path it is kept), any other element is appended. `out` is the output so far,
last element first. -/
def cleanStep (rooted : Bool) (out : List (List Char)) (elem : List Char) :
    List (List Char) :=
  if elem = [] ∨ elem = ['.'] then out
  else if elem = ['.', '.'] then
    match out with
    | [] => if rooted then [] else [elem]
    | top :: rest => if top = ['.', '.'] then elem :: out else rest
  else elem :: out

/-- `filepath.Clean(path)`. -/
def Clean (path : String) : String :=
  if path = "" then "."
  else
    let rooted : Bool := path.data.head? = some '/'
    let out := (splitChar '/' path.data).foldl (cleanStep rooted) []
    let body := String.mk (List.intercalate ['/'] out.reverse)
    if rooted then "/" ++ body
    else if body = "" then "." else body

/-- `filepath.Join(a, b)`: the non-empty elements joined with '/' and cleaned. -/
def Join (a b : String) : String :=
  if a ≠ "" then Clean (a ++ "/" ++ b)
  else if b ≠ "" then Clean b
  else ""

/-! ## strconv.Quote (the `%q` verb of fmt) -/

/-- `lowerhex[n]`. -/
def lowerhex (n : Nat) : Char :=
  "0123456789abcdef".data.getD n '0'

/-- `strconv.IsPrint(r)`: explicit up to U+00FF, from the Unicode tables above it, which
are supplied as `wide`. -/
def IsPrint (wide : Char → Bool) (r : Char) : Bool :=
  if r.toNat ≤ 0xFF then
    if 0x20 ≤ r.toNat ∧ r.toNat ≤ 0x7E then true
    else if 0xA1 ≤ r.toNat then r.toNat ≠ 0xAD
    else false
  else wide r

/-- `appendEscapedRune(buf, r, '"', false, false)` of strconv. -/
def escapedRune (wide : Char → Bool) (r : Char) : List Char :=
  if r = '"' ∨ r = '\\' then ['\\', r]
  else if IsPrint wide r then [r]
  else if r.toNat = 7 then ['\\', 'a']
  else if r.toNat = 8 then ['\\', 'b']
  else if r.toNat = 12 then ['\\', 'f']
  else if r = '\n' then ['\\', 'n']
  else if r = '\r' then ['\\', 'r']
  else if r = '\t' then ['\\', 't']
  else if r.toNat = 11 then ['\\', 'v']
  else if r.toNat < 0x20 ∨ r.toNat = 0x7F then
    ['\\', 'x', lowerhex (r.toNat / 16), lowerhex (r.toNat % 16)]
  else if r.toNat < 0x10000 then
    ['\\', 'u', lowerhex (r.toNat / 4096 % 16), lowerhex (r.toNat / 256 % 16),
      lowerhex (r.toNat / 16 % 16), lowerhex (r.toNat % 16)]
  else
    ['\\', 'U', lowerhex (r.toNat / 268435456 % 16), lowerhex (r.toNat / 16777216 % 16),
      lowerhex (r.toNat / 1048576 % 16), lowerhex (r.toNat / 65536 % 16),
      lowerhex (r.toNat / 4096 % 16), lowerhex (r.toNat / 256 % 16),
      lowerhex (r.toNat / 16 % 16), lowerhex (r.toNat % 16)]

/-- `strconv.Quote(s)`: a double-quoted Go string literal. -/
def Quote (wide : Char → Bool) (s : String) : String :=
  "\"" ++ String.mk (s.data.flatMap (escapedRune wide)) ++ "\""

/-! ## encoding/json: scanning -/

/-- A JSON value as the decoder sees it; a number keeps its literal text. -/
inductive JVal where
  | null
  | bool (b : Bool)
  | num (lit : List Char)
  | str (s : List Char)
  | arr (xs : List JVal)
  | obj (ms : List (List Char × JVal))

/-- JSON white space. -/
def isSpace (c : Char) : Bool :=
  c = ' ' ∨ c = '\t' ∨ c = '\r' ∨ c = '\n'

/-- Drop leading white space. -/
def skipSpace : List Char → List Char
  | [] => []
  | c :: cs => if isSpace c then skipSpace cs else c :: cs

/-- A decimal digit. -/
def isDigit (c : Char) : Bool :=
  '0'.toNat ≤ c.toNat ∧ c.toNat ≤ '9'.toNat

/-- The value of a hexadecimal digit, upper or lower case. -/
def hexVal (c : Char) : Option Nat :=
  if '0'.toNat ≤ c.toNat ∧ c.toNat ≤ '9'.toNat then some (c.toNat - '0'.toNat)
  else if 'a'.toNat ≤ c.toNat ∧ c.toNat ≤ 'f'.toNat then some (c.toNat - 'a'.toNat + 10)
  else if 'A'.toNat ≤ c.toNat ∧ c.toNat ≤ 'F'.toNat then some (c.toNat - 'A'.toNat + 10)
  else none

/-- The value of four hexadecimal digits (`getu4` after the `\u`). -/
def hex4 (a b c d : Char) : Option Nat :=
  match hexVal a, hexVal b, hexVal c, hexVal d with
  | some x, some y, some z, some w => some (x * 4096 + y * 256 + z * 16 + w)
  | _, _, _, _ => none

/-- The character of a one-letter escape. -/
def simpleEscape (e : Char) : Option Char :=
  if e = '"' then some '"'
  else if e = '\\' then some '\\'
  else if e = '/' then some '/'
  else if e = 'b' then some (Char.ofNat 8)
  else if e = 'f' then some (Char.ofNat 12)
  else if e = 'n' then some '\n'
  else if e = 'r' then some '\r'
  else if e = 't' then some '\t'
  else none

/-- `utf16.DecodeRune(r1, r2)` for a high surrogate `r1` and a low surrogate `r2`. -/
def decodeSurrogates (r1 r2 : Nat) : Char :=
  Char.ofNat ((r1 - 0xD800) * 1024 + (r2 - 0xDC00) + 0x10000)

/-- Put a character in front of the text of a scanned string. -/
def consChar (c : Char) (p : Option (List Char × List Char)) :
    Option (List Char × List Char) :=
  p.map fun q => (c :: q.1, q.2)

/-- A `\u` escape of a surrogate half that is still waiting for its other half becomes
U+FFFD in front of what follows. -/
def flushPending (pending : Option Nat) (p : Option (List Char × List Char)) :
    Option (List Char × List Char) :=
  match pending with
  | none => p
  | some _ => consChar (Char.ofNat 0xFFFD) p

/-- A JSON string after its opening quote: the unquoted text and the input after the
closing quote. Raw control characters and unknown escapes are syntax errors. A `\u`
escape of a surrogate half is held in `pending`: a high half followed at once by the
escape of a low half is the character they encode, any other half is U+FFFD. -/
def scanStringFrom (pending : Option Nat) : List Char → Option (List Char × List Char)
  | [] => none
  | c :: cs =>
    if c = '"' then flushPending pending (some ([], cs))
    else if c = '\\' then
      match cs with
      | [] => none
      | e :: r =>
        if e = 'u' then
          match r with
          | a :: b :: x :: y :: r1 =>
            match hex4 a b x y with
            | none => none
            | some rr =>
              match pending with
              | some hi =>
                if hi < 0xDC00 ∧ 0xDC00 ≤ rr ∧ rr < 0xE000 then
                  consChar (decodeSurrogates hi rr) (scanStringFrom none r1)
                else if 0xD800 ≤ rr ∧ rr < 0xE000 then
                  consChar (Char.ofNat 0xFFFD) (scanStringFrom (some rr) r1)
                else
                  consChar (Char.ofNat 0xFFFD) (consChar (Char.ofNat rr) (scanStringFrom none r1))
              | none =>
                if 0xD800 ≤ rr ∧ rr < 0xE000 then scanStringFrom (some rr) r1
                else consChar (Char.ofNat rr) (scanStringFrom none r1)
          | _ => none
        else
          match simpleEscape e with
          | some ch => flushPending pending (consChar ch (scanStringFrom none r))
          | none => none
    else if c.toNat < 0x20 then none
    else flushPending pending (consChar c (scanStringFrom none cs))

/-- A JSON string after its opening quote. -/
def scanString (cs : List Char) : Option (List Char × List Char) :=
  scanStringFrom none cs

/-- The leading decimal digits and the rest. -/
def takeDigits : List Char → List Char × List Char
  | [] => ([], [])
  | c :: cs =>
    if isDigit c then ((c :: (takeDigits cs).1), (takeDigits cs).2)
    else ([], c :: cs)

/-- The integer part of a number: "0", or a non-zero digit and more digits. -/
def scanIntPart : List Char → Option (List Char × List Char)
  | [] => none
  | d :: r =>
    if d = '0' then some (['0'], r)
    else if isDigit d then some (d :: (takeDigits r).1, (takeDigits r).2)
    else none

/-- The optional fraction of a number: '.' and at least one digit. -/
def scanFrac : List Char → Option (List Char × List Char)
  | [] => some ([], [])
  | c :: r =>
    if c = '.' then
      if (takeDigits r).1 = [] then none
      else some ('.' :: (takeDigits r).1, (takeDigits r).2)
    else some ([], c :: r)

/-- The digits of an exponent, after its optional sign: at least one. -/
def scanExpDigits (pre : List Char) (r : List Char) : Option (List Char × List Char) :=
  if (takeDigits r).1 = [] then none
  else some (pre ++ (takeDigits r).1, (takeDigits r).2)

/-- The optional exponent of a number: 'e' or 'E', an optional sign, digits. -/
def scanExp : List Char → Option (List Char × List Char)
  | [] => some ([], [])
  | c :: r =>
    if c = 'e' ∨ c = 'E' then
      match r with
      | [] => none
      | s :: r1 =>
        if s = '+' ∨ s = '-' then scanExpDigits [c, s] r1
        else scanExpDigits [c] (s :: r1)
    else some ([], c :: r)

/-- A JSON number: its literal text and the input after it. -/
def scanNumber (cs : List Char) : Option (List Char × List Char) :=
  let signed : List Char × List Char :=
    match cs with
    | [] => ([], [])
    | c :: r => if c = '-' then (['-'], r) else ([], c :: r)
  match scanIntPart signed.2 with
  | none => none
  | some (ip, r1) =>
    match scanFrac r1 with
    | none => none
    | some (fp, r2) =>
      match scanExp r2 with
      | none => none
      | some (ep, r3) => some (signed.1 ++ ip ++ fp ++ ep, r3)

/-- The input after the literal `lit`, when the input starts with it. -/
def scanLiteral (lit : List Char) (cs : List Char) : Option (List Char) :=
  if cs.take lit.length = lit then some (cs.drop lit.length) else none

/-- `maxNestingDepth` of the scanner. -/
def maxNestingDepth : Nat := 10000

/-- The members of an object after the first white space inside the braces, up to and
including the closing brace; `pv` scans one value. -/
def scanMembers (pv : List Char → Option (JVal × List Char)) :
    Nat → List Char → Option (List (List Char × JVal) × List Char)
  | 0, _ => none
  | fuel + 1, cs =>
    match cs with
    | [] => none
    | q :: r =>
      if q = '"' then
        match scanString r with
        | none => none
        | some (key, r1) =>
          match skipSpace r1 with
          | [] => none
          | colon :: r2 =>
            if colon = ':' then
              match pv r2 with
              | none => none
              | some (v, r3) =>
                match skipSpace r3 with
                | [] => none
                | sep :: r4 =>
                  if sep = ',' then
                    (scanMembers pv fuel (skipSpace r4)).map fun p => ((key, v) :: p.1, p.2)
                  else if sep = '}' then some ([(key, v)], r4)
                  else none
            else none
      else none

/-- The elements of an array after the first one, up to and including the closing
bracket; `pv` scans one value. -/
def scanElems (pv : List Char → Option (JVal × List Char)) :
    Nat → List Char → Option (List JVal × List Char)
  | 0, _ => none
  | fuel + 1, cs =>
    match skipSpace cs with
    | [] => none
    | sep :: r =>
      if sep = ',' then
        match pv r with
        | none => none
        | some (v, r1) => (scanElems pv fuel r1).map fun p => (v :: p.1, p.2)
      else if sep = ']' then some ([], r)
      else none

/-- One JSON value, after optional white space, and the input after it. `depth` is the
number of arrays and objects the value lies in. -/
def scanValue : Nat → Nat → List Char → Option (JVal × List Char)
  | 0, _, _ => none
  | fuel + 1, depth, cs =>
    match skipSpace cs with
    | [] => none
    | c :: r =>
      if c = '"' then (scanString r).map fun p => (JVal.str p.1, p.2)
      else if c = '{' then
        if depth + 1 > maxNestingDepth then none
        else
          match skipSpace r with
          | [] => none
          | c1 :: r1 =>
            if c1 = '}' then some (JVal.obj [], r1)
            else (scanMembers (scanValue fuel (depth + 1)) fuel (c1 :: r1)).map
              fun p => (JVal.obj p.1, p.2)
      else if c = '[' then
        if depth + 1 > maxNestingDepth then none
        else
          match skipSpace r with
          | [] => none
          | c1 :: r1 =>
            if c1 = ']' then some (JVal.arr [], r1)
            else
              match scanValue fuel (depth + 1) (c1 :: r1) with
              | none => none
              | some (v, r2) =>
                (scanElems (scanValue fuel (depth + 1)) fuel r2).map
                  fun p => (JVal.arr (v :: p.1), p.2)
      else if c = 't' then (scanLiteral "rue".data r).map fun r1 => (JVal.bool true, r1)
      else if c = 'f' then (scanLiteral "alse".data r).map fun r1 => (JVal.bool false, r1)
      else if c = 'n' then (scanLiteral "ull".data r).map fun r1 => (JVal.null, r1)
      else if c = '-' ∨ isDigit c then
        (scanNumber (c :: r)).map fun p => (JVal.num p.1, p.2)
      else none

/-- A whole JSON document: one value with white space around it (`checkValid` and the
scan of the decoder). Each step of the scan consumes input, so a fuel of one more than the
length of the document never runs out. -/
def parseJSON (data : String) : Option JVal :=
  match scanValue (data.length + 1) 0 data.data with
  | none => none
  | some (v, rest) => if skipSpace rest = [] then some v else none

/-! ## encoding/json: decoding into `Metadata` -/

/-- The errors of `json.Unmarshal`: the scanner's `SyntaxError` with its message, and
`UnmarshalTypeError` for a value that does not fit the Go type it is stored in. -/
inductive JsonError where
  | SyntaxError (msg : String)
  | UnmarshalTypeError (value struct field type_ : String)
  deriving DecidableEq, Repr

/-- The `Error()` text of a decoding error. -/
def JsonError.Error : JsonError → String
  | .SyntaxError msg => msg
  | .UnmarshalTypeError v s f t =>
    if s ≠ "" ∨ f ≠ "" then
      "json: cannot unmarshal " ++ v ++ " into Go struct field " ++ s ++ "." ++ f ++
        " of type " ++ t
    else "json: cannot unmarshal " ++ v ++ " into Go value of type " ++ t

/-- How `UnmarshalTypeError.Value` describes a JSON value. -/
def JVal.kind : JVal → String
  | .null => "null"
  | .bool _ => "bool"
  | .num _ => "number"
  | .str _ => "string"
  | .arr _ => "array"
  | .obj _ => "object"

/-- The value of a list of decimal digits, most significant first. -/
def digitsValue (ds : List Char) : Nat :=
  ds.foldl (fun acc c => acc * 10 + (c.toNat - '0'.toNat)) 0

/-- `strconv.ParseInt(s, 10, 64)`: an optional sign and decimal digits, within 64 bits. -/
def parseInt64 (lit : List Char) : Option Int :=
  let signed : Bool × List Char :=
    match lit with
    | [] => (false, [])
    | c :: r => if c = '-' then (true, r) else if c = '+' then (false, r) else (false, c :: r)
  if signed.2 = [] ∨ ¬ signed.2.all isDigit then none
  else
    let v : Int := if signed.1 then -(digitsValue signed.2 : Int) else (digitsValue signed.2 : Int)
    if -(2 : Int) ^ 63 ≤ v ∧ v < (2 : Int) ^ 63 then some v else none

/-- The decoder's progress: the struct being filled and the first type error met
(`d.savedError`); decoding goes on after a type error and reports it at the end. -/
structure DecodeState where
  m : Metadata
  savedError : Option JsonError

/-- `d.saveError(err)`: only the first error is kept. -/
def DecodeState.saveError (st : DecodeState) (e : JsonError) : DecodeState :=
  match st.savedError with
  | none => { st with savedError := some e }
  | some _ => st

/-- Store a JSON value in a field of type `string`: a string is stored, null leaves the
field alone, anything else is a type error. -/
def storeString (st : DecodeState) (field : String) (set : Metadata → String → Metadata)
    (v : JVal) : DecodeState :=
  match v with
  | .str s => { st with m := set st.m (String.mk s) }
  | .null => st
  | _ => st.saveError (.UnmarshalTypeError v.kind "Metadata" field "string")

/-- Store a JSON value in a field of type `int`: a number that `ParseInt` accepts is
stored, null leaves the field alone, anything else is a type error. -/
def storeInt (st : DecodeState) (field : String) (set : Metadata → Int → Metadata)
    (v : JVal) : DecodeState :=
  match v with
  | .num lit =>
    match parseInt64 lit with
    | some n => { st with m := set st.m n }
    | none =>
      st.saveError (.UnmarshalTypeError ("number " ++ String.mk lit) "Metadata" field "int")
  | .null => st
  | _ => st.saveError (.UnmarshalTypeError v.kind "Metadata" field "int")

/-- The `json:"..."` names of the fields of `Metadata`, in declaration order. -/
def fieldNames : List String :=
  ["backend", "dolt_database", "dolt_mode", "dolt_server_host", "dolt_server_port",
   "dolt_server_user"]

/-- `foldRune`: the smallest rune of the case-folding orbit, for the orbits that reach
ASCII (the letters, U+017F for 's' and U+212A for 'k'). -/
def foldRune (c : Char) : Char :=
  if 'a'.toNat ≤ c.toNat ∧ c.toNat ≤ 'z'.toNat then Char.ofNat (c.toNat - 32)
  else if c.toNat = 0x17F then 'S'
  else if c.toNat = 0x212A then 'K'
  else c

/-- `foldName`: a key with every rune folded. -/
def foldName (s : List Char) : List Char :=
  s.map foldRune

/-- The field an object key names: the field with exactly that name, or else the first
field with the same folded name. -/
def findField (key : List Char) : Option String :=
  match fieldNames.find? (fun f => f.data = key) with
  | some f => some f
  | none => fieldNames.find? (fun f => foldName f.data = foldName key)

/-- Decode one member of the object: a key that names no field is skipped. -/
def storeMember (st : DecodeState) (kv : List Char × JVal) : DecodeState :=
  match findField kv.1 with
  | none => st
  | some f =>
    if f = "backend" then storeString st f (fun m s => { m with Backend := s }) kv.2
    else if f = "dolt_database" then
      storeString st f (fun m s => { m with DoltDatabase := s }) kv.2
    else if f = "dolt_mode" then storeString st f (fun m s => { m with DoltMode := s }) kv.2
    else if f = "dolt_server_host" then
      storeString st f (fun m s => { m with ServerHost := s }) kv.2
    else if f = "dolt_server_port" then
      storeInt st f (fun m n => { m with ServerPort := n }) kv.2
    else storeString st f (fun m s => { m with ServerUser := s }) kv.2

/-- Decode a JSON value into a zero `Metadata` (`var metadata Metadata` followed by
`json.Unmarshal(data, &metadata)` once the document has been scanned). -/
def decodeMetadata (v : JVal) : Except JsonError Metadata :=
  match v with
  | .obj ms =>
    let st := ms.foldl storeMember { m := {}, savedError := none }
    match st.savedError with
    | some e => .error e
    | none => .ok st.m
  | .null => .ok {}
  | _ => .error (.UnmarshalTypeError v.kind "" "" "dolt.Metadata")

/-- `json.Unmarshal(data, &metadata)` on a zero `Metadata`. The wording of the scanner's
message for a malformed document is supplied as `syntaxText`. -/
def Unmarshal (syntaxText : String → String) (data : String) : Except JsonError Metadata :=
  match parseJSON data with
  | none => .error (.SyntaxError (syntaxText data))
  | some v => decodeMetadata v

/-! ## encoding/json: encoding a `Metadata` -/

/-- `htmlSafeSet`: the ASCII characters `json.Marshal` writes as they are. -/
def htmlSafe (c : Char) : Bool :=
  0x20 ≤ c.toNat ∧ c.toNat < 0x80 ∧ c ≠ '"' ∧ c ≠ '\\' ∧ c ≠ '&' ∧ c ≠ '<' ∧ c ≠ '>'

/-- How `json.Marshal` writes one character of a string. -/
def jsonEscape (c : Char) : List Char :=
  if c.toNat < 0x80 then
    if htmlSafe c then [c]
    else if c = '\\' ∨ c = '"' then ['\\', c]
    else if c.toNat = 8 then ['\\', 'b']
    else if c.toNat = 12 then ['\\', 'f']
    else if c = '\n' then ['\\', 'n']
    else if c = '\r' then ['\\', 'r']
    else if c = '\t' then ['\\', 't']
    else ['\\', 'u', '0', '0', lowerhex (c.toNat / 16), lowerhex (c.toNat % 16)]
  else if c.toNat = 0x2028 ∨ c.toNat = 0x2029 then
    ['\\', 'u', '2', '0', '2', lowerhex (c.toNat % 16)]
  else [c]

/-- A string as a JSON string literal. -/
def jsonString (s : String) : List Char :=
  '"' :: (s.data.flatMap jsonEscape ++ ['"'])

/-- `strconv.FormatInt(n, 10)`, also the `%d` verb of fmt. -/
def FormatInt (n : Int) : String :=
  if n < 0 then String.mk ('-' :: Nat.toDigits 10 n.natAbs)
  else String.mk (Nat.toDigits 10 n.natAbs)

/-- The name of a field and the colon after it. -/
def jsonKey (name : String) : List Char :=
  '"' :: (name.data ++ ['"', ':'])

/-- `json.Marshal(m)` for a `Metadata`: every field under its `json` name, in
declaration order, without white space. -/
def Marshal (m : Metadata) : String :=
  String.mk ('\x7b' ::
    (jsonKey "backend" ++ (jsonString m.Backend ++ ',' ::
    (jsonKey "dolt_database" ++ (jsonString m.DoltDatabase ++ ',' ::
    (jsonKey "dolt_mode" ++ (jsonString m.DoltMode ++ ',' ::
    (jsonKey "dolt_server_host" ++ (jsonString m.ServerHost ++ ',' ::
    (jsonKey "dolt_server_port" ++ ((FormatInt m.ServerPort).data ++ ',' ::
    (jsonKey "dolt_server_user" ++ (jsonString m.ServerUser ++ ['\x7d'])))))))))))))

/-! ## metadata.go: the metadata loader -/

/-- What the loader finds around it: the file system, and the two tables of the standard
library that are not spelled out here (the printable runes above U+00FF of
`strconv.IsPrint`, and the wording of the JSON scanner's error for a malformed document). -/
structure Sys where
  files : FileSystem
  printable : Char → Bool
  syntaxText : String → String

/-- `func LoadMetadata(beadsDir string) (*Metadata, error)`. -/
def LoadMetadata (sys : Sys) (beadsDir : String) : Except GoError Metadata :=
  let metadataPath := Join beadsDir "metadata.json"
  match ReadFile sys.files metadataPath with
  | .error err =>
    if IsNotExist err then
      .error {
        msg := "no beads database found at " ++ Quote sys.printable beadsDir ++
          ": metadata.json is missing\n" ++
          "Is this a beads project? Run 'bd init' to initialize beads in this repository" }
    else
      .error { msg := "failed to read metadata.json: " ++ err.Error, wrapped := some err.Error }
  | .ok data =>
    match Unmarshal sys.syntaxText data with
    | .error err =>
      .error {
        msg := "metadata.json is corrupted or has invalid JSON: " ++ err.Error ++ "\n" ++
          "Try removing " ++ metadataPath ++ " and running 'bd init' to recreate it",
        wrapped := some err.Error }
    | .ok metadata =>
      if !metadata.IsValid then
        .error {
          msg := "metadata.json is missing required field 'dolt_database'\n" ++
            "File location: " ++ metadataPath ++ "\n" ++
            "Try running 'bd init' to regenerate the metadata file" }
      else .ok metadata

/-- `func DoltDir(beadsDir string) string`. -/
def DoltDir (beadsDir : String) : String :=
  Join beadsDir "dolt"

/-! ## server.go: the DSN builder (with `Config.FormatDSN` of go-sql-driver/mysql) -/

/-- The fields of `mysql.Config` that `buildServerDSN` sets; every other field keeps the
value `mysql.NewConfig()` gives it (`Loc` is `time.UTC` there and is set to it again). -/
structure Config where
  User : String := ""
  Passwd : String := ""
  Net : String := ""
  Addr : String := ""
  DBName : String := ""
  ParseTime : Bool := false
  deriving DecidableEq, Repr

/-- The UTF-8 bytes of a character. -/
def utf8Bytes (c : Char) : List Nat :=
  if c.toNat < 0x80 then [c.toNat]
  else if c.toNat < 0x800 then [0xC0 + c.toNat / 64, 0x80 + c.toNat % 64]
  else if c.toNat < 0x10000 then
    [0xE0 + c.toNat / 4096, 0x80 + c.toNat / 64 % 64, 0x80 + c.toNat % 64]
  else
    [0xF0 + c.toNat / 262144, 0x80 + c.toNat / 4096 % 64, 0x80 + c.toNat / 64 % 64,
      0x80 + c.toNat % 64]

/-- `upperhex[n]`. -/
def upperhex (n : Nat) : Char :=
  "0123456789ABCDEF".data.getD n '0'

/-- `shouldEscape(c, encodePathSegment)` of net/url for a byte: letters, digits and
`-_.~$&+=:@` are kept. -/
def shouldEscape (b : Nat) : Bool :=
  ¬ (('a'.toNat ≤ b ∧ b ≤ 'z'.toNat) ∨ ('A'.toNat ≤ b ∧ b ≤ 'Z'.toNat) ∨
     ('0'.toNat ≤ b ∧ b ≤ '9'.toNat) ∨
     b = '-'.toNat ∨ b = '_'.toNat ∨ b = '.'.toNat ∨ b = '~'.toNat ∨
     b = '$'.toNat ∨ b = '&'.toNat ∨ b = '+'.toNat ∨ b = '='.toNat ∨
     b = ':'.toNat ∨ b = '@'.toNat)

/-- One byte of `url.PathEscape`. -/
def escapeByte (b : Nat) : List Char :=
  if shouldEscape b then ['%', upperhex (b / 16), upperhex (b % 16)]
  else [Char.ofNat b]

/-- `url.PathEscape(s)`: byte by byte over the UTF-8 form of `s`. -/
def PathEscape (s : String) : String :=
  String.mk (s.data.flatMap fun c => (utf8Bytes c).flatMap escapeByte)

/-- `func (cfg *Config) FormatDSN() string`, for a `Config` that differs from
`NewConfig()` in the modelled fields only:
`[user[:password]@][net[(addr)]]/dbname[?parseTime=true]`. User, password and address are
written as they are; the database name is path-escaped. -/
def Config.FormatDSN (cfg : Config) : String :=
  (if cfg.User ≠ "" then
      cfg.User ++ (if cfg.Passwd ≠ "" then ":" ++ cfg.Passwd else "") ++ "@"
    else "") ++
  (if cfg.Net ≠ "" then
      cfg.Net ++ (if cfg.Addr ≠ "" then "(" ++ cfg.Addr ++ ")" else "")
    else "") ++
  "/" ++ PathEscape cfg.DBName ++
  (if cfg.ParseTime then "?parseTime=true" else "")

/-- The `mysql.Config` that `buildServerDSN` fills in before it formats it (the body of
`buildServerDSN` up to `return cfg.FormatDSN()`); `getenv` is `os.Getenv`. -/
def buildServerConfig (getenv : String → String) (metadata : Metadata) : Config :=
  let user := if metadata.ServerUser = "" then "root" else metadata.ServerUser
  let host := if metadata.ServerHost = "" then "127.0.0.1" else metadata.ServerHost
  let port := if metadata.ServerPort = 0 then 3307 else metadata.ServerPort
  { User := user
    Passwd := getenv "BEADS_DOLT_PASSWORD"
    Net := "tcp"
    Addr := host ++ ":" ++ FormatInt port
    DBName := metadata.DoltDatabase
    ParseTime := true }

/-- `func buildServerDSN(metadata *Metadata) string`. -/
def buildServerDSN (getenv : String → String) (metadata : Metadata) : String :=
  (buildServerConfig getenv metadata).FormatDSN

/-! ## The driver's DSN parser (`ParseDSN` of go-sql-driver/mysql) -/

/-- Split at the last occurrence of `c`: what is before it and what is after it. -/
def splitLast (c : Char) : List Char → Option (List Char × List Char)
  | [] => none
  | x :: xs =>
    match splitLast c xs with
    | some p => some (x :: p.1, p.2)
    | none => if x = c then some ([], xs) else none

/-- Split at the first occurrence of `c` (`strings.Cut`). -/
def splitFirst (c : Char) : List Char → Option (List Char × List Char)
  | [] => none
  | x :: xs =>
    if x = c then some ([], xs)
    else (splitFirst c xs).map fun p => (x :: p.1, p.2)

/-- The first byte of a multi-byte UTF-8 sequence: the bits it carries and the number of
continuation bytes that follow. -/
def utf8Lead (b : Nat) : Option (Nat × Nat) :=
  if 0xC2 ≤ b ∧ b < 0xE0 then some (b - 0xC0, 1)
  else if 0xE0 ≤ b ∧ b < 0xF0 then some (b - 0xE0, 2)
  else if 0xF0 ≤ b ∧ b < 0xF5 then some (b - 0xF0, 3)
  else none

/-- The character with code point `n`, U+FFFD when there is none. -/
def runeOf (n : Nat) : Char :=
  if n.isValidChar then Char.ofNat n else Char.ofNat 0xFFFD

/-- The characters of a Go string given by its bytes (what `range` over the string
yields). `pending` holds the bits read so far of an unfinished sequence and the number of
continuation bytes still expected. Bytes that are not UTF-8 have no counterpart in the
model and become U+FFFD. -/
def utf8DecodeFrom : Option (Nat × Nat) → List Nat → List Char
  | none, [] => []
  | some _, [] => [Char.ofNat 0xFFFD]
  | none, b :: bs =>
    if b < 0x80 then runeOf b :: utf8DecodeFrom none bs
    else
      match utf8Lead b with
      | some st => utf8DecodeFrom (some st) bs
      | none => Char.ofNat 0xFFFD :: utf8DecodeFrom none bs
  | some (acc, more), b :: bs =>
    if 0x80 ≤ b ∧ b < 0xC0 then
      if more ≤ 1 then runeOf (acc * 64 + (b - 0x80)) :: utf8DecodeFrom none bs
      else utf8DecodeFrom (some (acc * 64 + (b - 0x80), more - 1)) bs
    else if b < 0x80 then Char.ofNat 0xFFFD :: runeOf b :: utf8DecodeFrom none bs
    else
      match utf8Lead b with
      | some st => Char.ofNat 0xFFFD :: utf8DecodeFrom (some st) bs
      | none => Char.ofNat 0xFFFD :: Char.ofNat 0xFFFD :: utf8DecodeFrom none bs

/-- The bytes of a percent-encoded text (`unescape(s, encodePathSegment)` of net/url):
`%XX` is the byte with that hexadecimal value, any other character stands for itself; a
'%' without two hexadecimal digits is an error. -/
def unescapeBytes : List Char → Option (List Nat)
  | [] => some []
  | c :: cs =>
    if c = '%' then
      match cs with
      | a :: b :: r =>
        match hexVal a, hexVal b with
        | some x, some y => (unescapeBytes r).map fun bs => (x * 16 + y) :: bs
        | _, _ => none
      | _ => none
    else (unescapeBytes cs).map fun bs => utf8Bytes c ++ bs

/-- `url.PathUnescape(s)`. -/
def PathUnescape (s : List Char) : Option String :=
  (unescapeBytes s).map fun bs => String.mk (utf8DecodeFrom none bs)

/-- The errors of `ParseDSN`. -/
inductive DSNError where
  | missingSlash
  | addrNotTerminated
  | unescapedParam
  | invalidDBName
  | invalidBool
  | unknownNet
  deriving DecidableEq, Repr

/-- `readBool(value)`. -/
def readBool (v : List Char) : Option Bool :=
  if v = "1".data ∨ v = "t".data ∨ v = "T".data ∨ v = "TRUE".data ∨ v = "true".data ∨
      v = "True".data then some true
  else if v = "0".data ∨ v = "f".data ∨ v = "F".data ∨ v = "FALSE".data ∨ v = "false".data ∨
      v = "False".data then some false
  else none

/-- `parseDSNParams(cfg, params)`, for the parameter that `FormatDSN` writes for the
modelled `Config`: `parseTime`. A parameter without '=' is skipped, as in the driver; the
driver's other parameters are outside the model and are skipped too. -/
def parseDSNParams (parseTime : Bool) : List (List Char) → Except DSNError Bool
  | [] => .ok parseTime
  | kv :: rest =>
    match splitFirst '=' kv with
    | none => parseDSNParams parseTime rest
    | some (key, value) =>
      if key = "parseTime".data then
        match readBool value with
        | some b => parseDSNParams b rest
        | none => .error .invalidBool
      else parseDSNParams parseTime rest

/-- `net.SplitHostPort(hostport)` succeeds: there is a port after the last colon, and
the host before it is either free of colons and brackets or one bracketed literal. -/
def splitHostPortOK (hostport : List Char) : Bool :=
  match splitLast ':' hostport with
  | none => false
  | some (host, _) =>
    if hostport.head? = some '[' then
      match splitFirst ']' hostport with
      | none => false
      | some (pre, _) =>
        pre.length + 1 = host.length ∧ '[' ∉ hostport.drop 1 ∧
          ']' ∉ hostport.drop (pre.length + 1)
    else ':' ∉ host ∧ '[' ∉ hostport ∧ ']' ∉ hostport

/-- `net.JoinHostPort(host, port)`. -/
def JoinHostPort (host port : String) : String :=
  if ':' ∈ host.data ∨ '%' ∈ host.data then "[" ++ host ++ "]:" ++ port
  else host ++ ":" ++ port

/-- `ensureHavePort(addr)`. -/
def ensureHavePort (addr : String) : String :=
  if splitHostPortOK addr.data then addr else JoinHostPort addr "3306"

/-- `func (cfg *Config) normalize() error`, on the modelled fields. -/
def Config.normalize (cfg : Config) : Except DSNError Config :=
  let net := if cfg.Net = "" then "tcp" else cfg.Net
  if cfg.Addr = "" then
    if net = "tcp" then .ok { cfg with Net := net, Addr := "127.0.0.1:3306" }
    else if net = "unix" then .ok { cfg with Net := net, Addr := "/tmp/mysql.sock" }
    else .error .unknownNet
  else if net = "tcp" then .ok { cfg with Net := net, Addr := ensureHavePort cfg.Addr }
  else .ok { cfg with Net := net }

/-- The `[protocol[(address)]]` part of a DSN: the network, and the address between the
first '(' and the ')' that has to end the part. -/
def parseNetAddr (netaddr : List Char) : Except DSNError (List Char × List Char) :=
  match splitFirst '(' netaddr with
  | none => .ok (netaddr, [])
  | some (net, rest) =>
    if netaddr.getLast? ≠ some ')' then
      if ')' ∈ rest then .error .unescapedParam else .error .addrNotTerminated
    else .ok (net, rest.dropLast)

/-- `func ParseDSN(dsn string) (cfg *Config, err error)`:
`[user[:password]@][net[(addr)]]/dbname[?param1=value1&...]`. The database name starts
after the last '/'; the user part ends at the last '@' before that and is cut at its first
':'; the parameters start at the first '?' after the last '/'. -/
def ParseDSN (dsn : String) : Except DSNError Config :=
  match splitLast '/' dsn.data with
  | none => if dsn = "" then Config.normalize {} else .error .missingSlash
  | some (left, right) =>
    let userpass : Option (List Char) × List Char :=
      match splitLast '@' left with
      | some p => (some p.1, p.2)
      | none => (none, left)
    let cred : List Char × List Char :=
      match userpass.1 with
      | none => ([], [])
      | some up =>
        match splitFirst ':' up with
        | some p => (p.1, p.2)
        | none => (up, [])
    match parseNetAddr userpass.2 with
    | .error e => .error e
    | .ok (net, addr) =>
      let tail : List Char × List (List Char) :=
        match splitFirst '?' right with
        | some p => (p.1, splitChar '&' p.2)
        | none => (right, [])
      match parseDSNParams false tail.2 with
      | .error e => .error e
      | .ok parseTime =>
        match PathUnescape tail.1 with
        | none => .error .invalidDBName
        | some db =>
          Config.normalize {
            User := String.mk cred.1, Passwd := String.mk cred.2, Net := String.mk net,
            Addr := String.mk addr, DBName := db, ParseTime := parseTime }

/-! ## schema.go and server.go: opening the store -/

/-- The outcome of each call into database/sql for one connection attempt: the error of
`sql.Open`, of `db.PingContext` (a failure or the ten-second timeout) and of the scan of
the probe query, or none when the call succeeds. -/
structure Driver where
  openErr : Option String
  pingErr : Option String
  probeErr : Option String

/-- A `*sql.DB`: the DSN it was opened with, its limits, and whether it has been closed. -/
structure Pool where
  dsn : String
  maxOpenConns : Nat := 0
  maxIdleConns : Nat := 2
  connMaxLifetimeSeconds : Nat := 0
  closed : Bool := false
  deriving DecidableEq, Repr

/-- `type Store struct`: the pool and the mode that produced it. -/
structure Store where
  db : Pool
  mode : Mode
  deriving DecidableEq, Repr

/-- `func verifySchema(ctx context.Context, db *sql.DB) error`: the probe
`SELECT COUNT(*) FROM ready_issues LIMIT 1` and its error, if any. -/
def verifySchema (drv : Driver) : Option GoError :=
  match drv.probeErr with
  | some err =>
    some {
      msg := "schema verification failed: unable to query ready_issues view: " ++ err ++ "; " ++
        "the database may be missing the beads schema or may be corrupted; " ++
        "try running 'bd init' to initialize or repair the database schema",
      wrapped := some err }
  | none => none

/-- What a connection attempt leaves behind: the value returned, and the pool as it is when
`newServerStore` returns (none when `sql.Open` did not produce one). -/
structure Attempt where
  result : Except GoError Store
  pool : Option Pool
  deriving DecidableEq, Repr

/-- `func newServerStore(ctx context.Context, _ string, metadata *Metadata) (*Store, error)`. -/
def newServerStore (getenv : String → String) (drv : Driver) (metadata : Metadata) : Attempt :=
  let dsn := buildServerDSN getenv metadata
  match drv.openErr with
  | some err =>
    { result := .error {
        msg := "failed to create MySQL connection pool: " ++ err, wrapped := some err },
      pool := none }
  | none =>
    let db : Pool :=
      { dsn := dsn, maxOpenConns := 10, maxIdleConns := 5, connMaxLifetimeSeconds := 300 }
    match drv.pingErr with
    | some err =>
      { result := .error {
          msg := "cannot connect to Dolt server at " ++ metadata.ServerHost ++ ":" ++
            FormatInt metadata.ServerPort ++ ": " ++ err ++ "; " ++
            "check that the server is running and accessible",
          wrapped := some err },
        pool := some { db with closed := true } }
    | none =>
      match verifySchema drv with
      | some err => { result := .error err, pool := some { db with closed := true } }
      | none => { result := .ok { db := db, mode := Mode.ServerMode }, pool := some db }

/-! ## Example worlds -/

/-- A world whose only file is `/p/.beads/metadata.json` with the given content; every
other path does not exist. -/
def worldWith (content : String) : Sys where
  files := fun p => if p = "/p/.beads/metadata.json" then .file content else .openFails .ENOENT
  printable := fun _ => true
  syntaxText := fun _ => "invalid character 'o' in literal null (expecting 'u')"

/-- A world in which no path can be opened: permission is denied everywhere. -/
def worldDenied : Sys where
  files := fun _ => .openFails .EACCES
  printable := fun _ => true
  syntaxText := fun _ => "unexpected end of JSON input"

/-- The descriptor of `TestLoadMetadata_ServerMode`. -/
def serverExample : Metadata where
  Backend := "dolt"
  DoltDatabase := "beads_fo"
  DoltMode := "server"
  ServerHost := "10.11.0.1"
  ServerPort := 13307
  ServerUser := "mysql-root"

end Dolt

namespace Discovery

/-! ## internal/discovery/models.go: active models -/

/-- A specific LLM model (`type Model struct`). -/
structure Model where
  ID : String := ""
  Name : String := ""
  deriving DecidableEq, Repr

/-- An LLM provider (`type Provider struct`). The `Models` map is the list of its entries
in the order `range` visits them, which Go leaves unspecified. -/
structure Provider where
  ID : String := ""
  Name : String := ""
  Env : List String := []
  API : String := ""
  Models : List (String × Model) := []
  deriving DecidableEq, Repr

/-- Model discovery and caching (`type Registry struct`). The `Providers` map is the list
of its entries in the order `range` visits them. -/
structure Registry where
  cachePath : String := ""
  Providers : List (String × Provider) := []
  deriving DecidableEq, Repr

/-- The operator `<` of Go on strings, character by character; on valid UTF-8 the order
of the bytes is the order of the code points. -/
def lessChars : List Char → List Char → Bool
  | _, [] => false
  | [], _ :: _ => true
  | a :: as, b :: bs =>
    if a < b then true
    else if b < a then false
    else lessChars as bs

/-- The comparison `a < b` of two Go strings. -/
def Less (a b : String) : Bool :=
  lessChars a.data b.data

/-- `sort.Strings(x)`: the strings in ascending order. Equal strings cannot be told
apart, so the result is the same for every sorting algorithm; insertion is used here. -/
def sortStrings (x : List String) : List String :=
  x.insertionSort fun a b => Less b a = false

/-- The loop of `isProviderActive` over `p.Env`: false at the first variable whose value
in the environment is empty. -/
def allSet (getenv : String → String) : List String → Bool
  | [] => true
  | envVar :: rest => if getenv envVar = "" then false else allSet getenv rest

/-- `func (r *Registry) isProviderActive(p Provider) bool`; `getenv` is `os.Getenv`. -/
def isProviderActive (getenv : String → String) (p : Provider) : Bool :=
  if p.Env.length = 0 then false else allSet getenv p.Env

/-- The inner loop of `GetActiveModels`: one `provider/model-id` string is appended for
every model of the provider. -/
def appendModels (p : Provider) (activeModels : List String) : List String :=
  p.Models.foldl (fun acc m => acc ++ [p.ID ++ "/" ++ m.2.ID]) activeModels

/-- `func (r *Registry) GetActiveModels() []string`. -/
def Registry.GetActiveModels (getenv : String → String) (r : Registry) : List String :=
  sortStrings
    (r.Providers.foldl
      (fun activeModels p =>
        if isProviderActive getenv p.2 then appendModels p.2 activeModels else activeModels)
      [])

/-- The registry of `TestGetActiveModels`, with a second model for the first provider. -/
def testRegistry : Registry where
  Providers := [
    ("p2", { ID := "p2", Env := ["P2_KEY"], Models := [("m2", { ID := "m2", Name := "Model 2" })] }),
    ("p1", { ID := "p1", Env := ["P1_KEY"],
             Models := [("m1", { ID := "m1", Name := "Model 1" }),
                        ("m0", { ID := "m0", Name := "Model 0" })] })]

/-- The environment of `TestGetActiveModels`: only `P1_KEY` is set. -/
def testEnv : String → String :=
  fun name => if name = "P1_KEY" then "val" else ""

end Discovery

namespace Dolt

/-! ## Theorems: mode resolver -/

/-- C1: a descriptor whose `DoltMode` is exactly "server" resolves to `ServerMode`,
whatever its backend, database name, host, port (also zero or negative) and user. -/
theorem connectionMode_server_hint (backend db host user : String) (port : Int) :
    Metadata.ConnectionMode
      { Backend := backend, DoltDatabase := db, DoltMode := "server",
        ServerHost := host, ServerPort := port, ServerUser := user } = Mode.ServerMode := by
  simp [Metadata.ConnectionMode]

/-- C2: for a descriptor whose `DoltMode` is not "server" (empty, "embedded" or any other
string), `ConnectionMode` is `ServerMode` exactly when the host is non-empty and the port is
positive, and `EmbeddedMode` in every other case (so also for a host with a port `≤ 0` and
for a positive port with an empty host); an "embedded" hint therefore does not override
present server fields. -/
theorem connectionMode_without_server_hint (m : Metadata) (h : m.DoltMode ≠ "server") :
    (m.ConnectionMode = Mode.ServerMode ↔ (m.ServerHost ≠ "" ∧ m.ServerPort > 0)) ∧
    (m.ConnectionMode = Mode.EmbeddedMode ↔ ¬ (m.ServerHost ≠ "" ∧ m.ServerPort > 0)) := by
  by_cases hp : m.ServerHost ≠ "" ∧ m.ServerPort > 0
  · simp [Metadata.ConnectionMode, h, hp]
  · simp [Metadata.ConnectionMode, h, hp]

/-- Witness for C2: an explicit "embedded" hint with host and port present. -/
theorem connectionMode_without_server_hint_witness :
    (Metadata.ConnectionMode
        { DoltDatabase := "beads_bb", DoltMode := "embedded",
          ServerHost := "localhost", ServerPort := 3307 } = Mode.ServerMode ↔
      (("localhost" : String) ≠ "" ∧ (3307 : Int) > 0)) ∧
    (Metadata.ConnectionMode
        { DoltDatabase := "beads_bb", DoltMode := "embedded",
          ServerHost := "localhost", ServerPort := 3307 } = Mode.EmbeddedMode ↔
      ¬ (("localhost" : String) ≠ "" ∧ (3307 : Int) > 0)) :=
  connectionMode_without_server_hint
    { DoltDatabase := "beads_bb", DoltMode := "embedded",
      ServerHost := "localhost", ServerPort := 3307 } (by decide)

/-! ## Theorems: the metadata loader -/

theorem contains_append_left {s sub : String} (t : String) (h : Contains s sub) :
    Contains (s ++ t) sub := by
  unfold Contains at *
  rw [String.data_append]
  exact List.IsInfix.trans h (List.prefix_append s.data t.data).isInfix

theorem contains_append_right {s sub : String} (t : String) (h : Contains s sub) :
    Contains (t ++ s) sub := by
  unfold Contains at *
  rw [String.data_append]
  exact List.IsInfix.trans h (List.suffix_append t.data s.data).isInfix

theorem contains_self (s : String) : Contains s s := List.infix_refl _

theorem hasPrefix_append (p t : String) : HasPrefix (p ++ t) p := by
  unfold HasPrefix
  rw [String.data_append]
  exact List.prefix_append _ _

/-- "no beads database found" cannot start inside "failed to read metadata.json: ": when
it occurs in the generic read error, it occurs in the text of the wrapped error. -/
theorem not_found_only_in_wrapped (x : String)
    (h : Contains ("failed to read metadata.json: " ++ x) "no beads database found") :
    Contains x "no beads database found" := by
  unfold Contains at *
  rw [String.data_append] at h
  have hp : ("failed to read metadata.json: " : String).data =
      ['f', 'a', 'i', 'l', 'e', 'd', ' ', 't', 'o', ' ', 'r', 'e', 'a', 'd', ' ', 'm', 'e',
       't', 'a', 'd', 'a', 't', 'a', '.', 'j', 's', 'o', 'n', ':', ' '] := by decide
  have hn : ("no beads database found" : String).data =
      'n' :: 'o' :: " beads database found".data := by decide
  rw [hp, hn] at h
  rw [hn]
  simp only [List.cons_append, List.nil_append, List.infix_cons_iff,
    List.cons_prefix_cons] at h
  simpa using h

theorem read_message_ne (x y : String) :
    "failed to read metadata.json: " ++ x ≠ "no beads database found at " ++ y := by
  intro h
  have := congrArg String.data h
  simp at this

/-- C3: when the metadata file parses into a descriptor with an empty database name,
`LoadMetadata` returns no descriptor and the incomplete-metadata error, whose message names
the missing field 'dolt_database' and the path of the metadata file; and whenever
`LoadMetadata` returns a descriptor, the descriptor is valid (its database name is not
empty). -/
theorem loadMetadata_incomplete (sys : Sys) (beadsDir : String) :
    (∀ data m, sys.files (Join beadsDir "metadata.json") = FileState.file data →
      Unmarshal sys.syntaxText data = Except.ok m → m.DoltDatabase = "" →
      ∃ e, LoadMetadata sys beadsDir = Except.error e ∧
        e.msg = "metadata.json is missing required field 'dolt_database'\n" ++
            "File location: " ++ Join beadsDir "metadata.json" ++ "\n" ++
            "Try running 'bd init' to regenerate the metadata file" ∧
        e.wrapped = none ∧
        Contains e.msg "missing required field 'dolt_database'" ∧
        Contains e.msg (Join beadsDir "metadata.json")) ∧
    (∀ m, LoadMetadata sys beadsDir = Except.ok m →
      m.IsValid = true ∧ m.DoltDatabase ≠ "") := by
  constructor
  · intro data m hfile hparse hempty
    refine ⟨{ msg := "metadata.json is missing required field 'dolt_database'\n" ++
            "File location: " ++ Join beadsDir "metadata.json" ++ "\n" ++
            "Try running 'bd init' to regenerate the metadata file" }, ?_, rfl, rfl, ?_, ?_⟩
    · simp [LoadMetadata, ReadFile, hfile, hparse, Metadata.IsValid, hempty]
    · apply contains_append_left
      apply contains_append_left
      apply contains_append_left
      apply contains_append_left
      decide
    · apply contains_append_left
      apply contains_append_left
      apply contains_append_right
      exact contains_self _
  · intro m h
    unfold LoadMetadata at h
    simp only [] at h
    split at h
    · split at h <;> simp at h
    · split at h
      · simp at h
      · split at h
        · simp at h
        · rename_i md _ hv
          simp at h
          subst h
          simp [Metadata.IsValid] at hv ⊢
          exact hv

/-- Witness for C3: the file of `TestLoadMetadata_MissingDoltDatabase` is rejected, the
file of `TestLoadMetadata_EmbeddedMode` gives a valid descriptor. -/
theorem loadMetadata_incomplete_witness :
    (∃ e, LoadMetadata (worldWith "\x7b\"database\": \"dolt\", \"backend\": \"dolt\"\x7d") "/p/.beads"
          = Except.error e ∧
        e.msg = "metadata.json is missing required field 'dolt_database'\n" ++
            "File location: " ++ Join "/p/.beads" "metadata.json" ++ "\n" ++
            "Try running 'bd init' to regenerate the metadata file" ∧
        e.wrapped = none ∧
        Contains e.msg "missing required field 'dolt_database'" ∧
        Contains e.msg (Join "/p/.beads" "metadata.json")) ∧
    (Metadata.IsValid { Backend := "dolt", DoltDatabase := "beads_bb" } = true ∧
      Metadata.DoltDatabase { Backend := "dolt", DoltDatabase := "beads_bb" } ≠ "") :=
  ⟨(loadMetadata_incomplete
      (worldWith "\x7b\"database\": \"dolt\", \"backend\": \"dolt\"\x7d") "/p/.beads").1
      "\x7b\"database\": \"dolt\", \"backend\": \"dolt\"\x7d" { Backend := "dolt" }
      (by decide) (by decide) (by decide),
   (loadMetadata_incomplete
      (worldWith "\x7b\"backend\": \"dolt\", \"dolt_database\": \"beads_bb\"\x7d") "/p/.beads").2
      { Backend := "dolt", DoltDatabase := "beads_bb" } (by decide)⟩

/-- C4, counterexample: the storage directory `/srv/no beads database found` exists but
cannot be read (permission denied, not "file does not exist"); the generic read error
that `LoadMetadata` returns contains "no beads database found". -/
theorem loadMetadata_read_error_may_contain_not_found :
    worldDenied.files (Join "/srv/no beads database found" "metadata.json")
      = FileState.openFails Errno.EACCES ∧
    LoadMetadata worldDenied "/srv/no beads database found" = Except.error {
      msg := "failed to read metadata.json: " ++
        "open /srv/no beads database found/metadata.json: permission denied",
      wrapped := some "open /srv/no beads database found/metadata.json: permission denied" } ∧
    Contains ("failed to read metadata.json: " ++
        "open /srv/no beads database found/metadata.json: permission denied")
      "no beads database found" := by
  decide

/-- C4, amended: when metadata.json does not exist, `LoadMetadata` returns no descriptor and
the not-initialized error, whose message contains "no beads database found", the quoted
storage directory followed by the file name, and the instruction to run 'bd init'. Any
other read failure gives a different message, which starts with
"failed to read metadata.json: " and wraps the read error; it contains
"no beads database found" only when the text of the read error does. -/
theorem loadMetadata_not_initialized (sys : Sys) (beadsDir : String) :
    (∀ err, ReadFile sys.files (Join beadsDir "metadata.json") = Except.error err →
      IsNotExist err = true →
      ∃ e, LoadMetadata sys beadsDir = Except.error e ∧
        e.msg = "no beads database found at " ++ Quote sys.printable beadsDir ++
          ": metadata.json is missing\n" ++
          "Is this a beads project? Run 'bd init' to initialize beads in this repository" ∧
        e.wrapped = none ∧
        Contains e.msg "no beads database found" ∧
        Contains e.msg (Quote sys.printable beadsDir ++ ": metadata.json is missing") ∧
        Contains e.msg "Run 'bd init'") ∧
    (∀ err, ReadFile sys.files (Join beadsDir "metadata.json") = Except.error err →
      IsNotExist err = false →
      ∃ e, LoadMetadata sys beadsDir = Except.error e ∧
        e.msg = "failed to read metadata.json: " ++ err.Error ∧
        e.wrapped = some err.Error ∧
        HasPrefix e.msg "failed to read metadata.json: " ∧
        (∀ (printable : Char → Bool) (dir : String),
          e.msg ≠ "no beads database found at " ++ Quote printable dir ++
            ": metadata.json is missing\n" ++
            "Is this a beads project? Run 'bd init' to initialize beads in this repository") ∧
        (¬ Contains err.Error "no beads database found" →
          ¬ Contains e.msg "no beads database found")) := by
  constructor
  · intro err hread hne
    refine ⟨{ msg := "no beads database found at " ++ Quote sys.printable beadsDir ++
          ": metadata.json is missing\n" ++
          "Is this a beads project? Run 'bd init' to initialize beads in this repository" },
      ?_, rfl, rfl, ?_, ?_, ?_⟩
    · simp [LoadMetadata, hread, hne]
    · apply contains_append_left
      apply contains_append_left
      apply contains_append_left
      decide
    · apply contains_append_left
      have h : Contains
          ("no beads database found at " ++
            (Quote sys.printable beadsDir ++ ": metadata.json is missing"))
          (Quote sys.printable beadsDir ++ ": metadata.json is missing") :=
        contains_append_right _ (contains_self _)
      have e1 : "no beads database found at " ++ Quote sys.printable beadsDir ++
          ": metadata.json is missing\n" =
          "no beads database found at " ++
            (Quote sys.printable beadsDir ++ ": metadata.json is missing") ++ "\n" := by
        apply String.ext
        simp
      rw [e1]
      exact contains_append_left _ h
    · apply contains_append_right
      decide
  · intro err hread hne
    refine ⟨{ msg := "failed to read metadata.json: " ++ err.Error,
              wrapped := some err.Error }, ?_, rfl, rfl, ?_, ?_, ?_⟩
    · simp [LoadMetadata, hread, hne]
    · exact hasPrefix_append _ _
    · intro printable dir
      have e1 : "no beads database found at " ++ Quote printable dir ++
            ": metadata.json is missing\n" ++
            "Is this a beads project? Run 'bd init' to initialize beads in this repository" =
          "no beads database found at " ++ (Quote printable dir ++
            ": metadata.json is missing\n" ++
            "Is this a beads project? Run 'bd init' to initialize beads in this repository") := by
        apply String.ext
        simp
      rw [e1]
      exact read_message_ne _ _
    · intro hno hc
      exact hno (not_found_only_in_wrapped _ hc)

/-- Witness for C4: the missing file of `TestLoadMetadata_FileNotFound`, and a directory
that cannot be read. -/
theorem loadMetadata_not_initialized_witness :
    (∃ e, LoadMetadata (worldWith "") "/q/nonexistent/.beads" = Except.error e ∧
        e.msg = "no beads database found at " ++
          Quote (worldWith "").printable "/q/nonexistent/.beads" ++
          ": metadata.json is missing\n" ++
          "Is this a beads project? Run 'bd init' to initialize beads in this repository" ∧
        e.wrapped = none ∧
        Contains e.msg "no beads database found" ∧
        Contains e.msg (Quote (worldWith "").printable "/q/nonexistent/.beads" ++
          ": metadata.json is missing") ∧
        Contains e.msg "Run 'bd init'") ∧
    (∃ e, LoadMetadata worldDenied "/p/.beads" = Except.error e ∧
        e.msg = "failed to read metadata.json: " ++
          PathError.Error ⟨"open", "/p/.beads/metadata.json", Errno.EACCES⟩ ∧
        e.wrapped = some (PathError.Error ⟨"open", "/p/.beads/metadata.json", Errno.EACCES⟩) ∧
        HasPrefix e.msg "failed to read metadata.json: " ∧
        (∀ (printable : Char → Bool) (dir : String),
          e.msg ≠ "no beads database found at " ++ Quote printable dir ++
            ": metadata.json is missing\n" ++
            "Is this a beads project? Run 'bd init' to initialize beads in this repository") ∧
        (¬ Contains (PathError.Error ⟨"open", "/p/.beads/metadata.json", Errno.EACCES⟩) "no beads database found" →
          ¬ Contains e.msg "no beads database found")) :=
  ⟨(loadMetadata_not_initialized (worldWith "") "/q/nonexistent/.beads").1
      { Op := "open", Path := "/q/nonexistent/.beads/metadata.json", Err := Errno.ENOENT }
      (by decide) (by decide),
   (loadMetadata_not_initialized worldDenied "/p/.beads").2
      { Op := "open", Path := "/p/.beads/metadata.json", Err := Errno.EACCES }
      (by decide) (by decide)⟩

theorem corrupt_message_ne (x y : String) :
    "metadata.json is corrupted or has invalid JSON: " ++ x ≠
      "metadata.json is missing required field 'dolt_database'\n" ++ y := by
  intro h
  have := congrArg String.data h
  simp at this

/-- C5: when the metadata file exists and `json.Unmarshal` returns an error for its
content, `LoadMetadata` returns no descriptor and the corrupt-metadata error: it wraps the
parse error, its message contains "corrupted or has invalid JSON" and the text of the parse
error, and suggests removing the file at its path and running 'bd init' to recreate it; the
validity check is not reached: the error is never the missing-field error. -/
theorem loadMetadata_corrupt (sys : Sys) (beadsDir data : String) (err : JsonError)
    (hfile : sys.files (Join beadsDir "metadata.json") = FileState.file data)
    (hparse : Unmarshal sys.syntaxText data = Except.error err) :
    ∃ e, LoadMetadata sys beadsDir = Except.error e ∧
      e.msg = "metadata.json is corrupted or has invalid JSON: " ++ err.Error ++ "\n" ++
        "Try removing " ++ Join beadsDir "metadata.json" ++
        " and running 'bd init' to recreate it" ∧
      e.wrapped = some err.Error ∧
      Contains e.msg "corrupted or has invalid JSON" ∧
      Contains e.msg err.Error ∧
      Contains e.msg ("Try removing " ++ Join beadsDir "metadata.json" ++
        " and running 'bd init' to recreate it") ∧
      (∀ path : String,
        e.msg ≠ "metadata.json is missing required field 'dolt_database'\n" ++
            "File location: " ++ path ++ "\n" ++
            "Try running 'bd init' to regenerate the metadata file") := by
  refine ⟨{ msg := "metadata.json is corrupted or has invalid JSON: " ++ err.Error ++ "\n" ++
        "Try removing " ++ Join beadsDir "metadata.json" ++
        " and running 'bd init' to recreate it", wrapped := some err.Error },
    ?_, rfl, rfl, ?_, ?_, ?_, ?_⟩
  · simp [LoadMetadata, ReadFile, hfile, hparse]
  · apply contains_append_left
    apply contains_append_left
    apply contains_append_left
    apply contains_append_left
    apply contains_append_left
    decide
  · apply contains_append_left
    apply contains_append_left
    apply contains_append_left
    apply contains_append_left
    apply contains_append_right
    exact contains_self _
  · have e1 : "metadata.json is corrupted or has invalid JSON: " ++ err.Error ++ "\n" ++
        "Try removing " ++ Join beadsDir "metadata.json" ++
        " and running 'bd init' to recreate it" =
        "metadata.json is corrupted or has invalid JSON: " ++ err.Error ++ "\n" ++
        ("Try removing " ++ Join beadsDir "metadata.json" ++
        " and running 'bd init' to recreate it") := by
      apply String.ext
      simp
    show Contains ("metadata.json is corrupted or has invalid JSON: " ++ err.Error ++ "\n" ++
        "Try removing " ++ Join beadsDir "metadata.json" ++
        " and running 'bd init' to recreate it") _
    rw [e1]
    exact contains_append_right _ (contains_self _)
  · intro path
    have e1 : "metadata.json is corrupted or has invalid JSON: " ++ err.Error ++ "\n" ++
        "Try removing " ++ Join beadsDir "metadata.json" ++
        " and running 'bd init' to recreate it" =
        "metadata.json is corrupted or has invalid JSON: " ++ (err.Error ++ "\n" ++
        "Try removing " ++ Join beadsDir "metadata.json" ++
        " and running 'bd init' to recreate it") := by
      apply String.ext
      simp
    have e2 : "metadata.json is missing required field 'dolt_database'\n" ++
            "File location: " ++ path ++ "\n" ++
            "Try running 'bd init' to regenerate the metadata file" =
        "metadata.json is missing required field 'dolt_database'\n" ++
            ("File location: " ++ path ++ "\n" ++
            "Try running 'bd init' to regenerate the metadata file") := by
      apply String.ext
      simp
    show "metadata.json is corrupted or has invalid JSON: " ++ err.Error ++ "\n" ++
        "Try removing " ++ Join beadsDir "metadata.json" ++
        " and running 'bd init' to recreate it" ≠ _
    rw [e1, e2]
    exact corrupt_message_ne _ _

/-- Witness for C5: the file of `TestLoadMetadata_InvalidJSON`. -/
theorem loadMetadata_corrupt_witness :
    ∃ e, LoadMetadata (worldWith "not valid json") "/p/.beads" = Except.error e ∧
      e.msg = "metadata.json is corrupted or has invalid JSON: " ++
        JsonError.Error
          (JsonError.SyntaxError "invalid character 'o' in literal null (expecting 'u')") ++
        "\n" ++ "Try removing " ++ Join "/p/.beads" "metadata.json" ++
        " and running 'bd init' to recreate it" ∧
      e.wrapped = some (JsonError.Error
          (JsonError.SyntaxError "invalid character 'o' in literal null (expecting 'u')")) ∧
      Contains e.msg "corrupted or has invalid JSON" ∧
      Contains e.msg (JsonError.Error
          (JsonError.SyntaxError "invalid character 'o' in literal null (expecting 'u')")) ∧
      Contains e.msg ("Try removing " ++ Join "/p/.beads" "metadata.json" ++
        " and running 'bd init' to recreate it") ∧
      (∀ path : String,
        e.msg ≠ "metadata.json is missing required field 'dolt_database'\n" ++
            "File location: " ++ path ++ "\n" ++
            "Try running 'bd init' to regenerate the metadata file") :=
  loadMetadata_corrupt (worldWith "not valid json") "/p/.beads" "not valid json"
    (JsonError.SyntaxError "invalid character 'o' in literal null (expecting 'u')")
    (by decide) (by decide)

/-! ## Theorems: the DSN builder and the store -/

/-- C7: `buildServerDSN` applies its defaults to absent fields only: the user is
`ServerUser`, or "root" when that is empty; the address is host:port with `ServerHost`, or
"127.0.0.1" when that is empty, and `ServerPort`, or 3307 when that is 0; the database name
handed to the driver is `DoltDatabase` as it is. An empty host with port 0 gives the
address 127.0.0.1:3307. The DSN is these parts in the driver's format. -/
theorem buildServerDSN_defaults (getenv : String → String) (m : Metadata) :
    (buildServerConfig getenv m).User = (if m.ServerUser = "" then "root" else m.ServerUser) ∧
    (buildServerConfig getenv m).Addr =
      (if m.ServerHost = "" then "127.0.0.1" else m.ServerHost) ++ ":" ++
        FormatInt (if m.ServerPort = 0 then 3307 else m.ServerPort) ∧
    (buildServerConfig getenv m).DBName = m.DoltDatabase ∧
    (buildServerConfig getenv { m with ServerHost := "", ServerPort := 0 }).Addr
      = "127.0.0.1:3307" ∧
    buildServerDSN getenv m =
      (if m.ServerUser = "" then "root" else m.ServerUser) ++
      (if getenv "BEADS_DOLT_PASSWORD" ≠ "" then ":" ++ getenv "BEADS_DOLT_PASSWORD" else "") ++
      "@" ++ "tcp" ++ "(" ++
      ((if m.ServerHost = "" then "127.0.0.1" else m.ServerHost) ++ ":" ++
        FormatInt (if m.ServerPort = 0 then 3307 else m.ServerPort)) ++ ")" ++
      "/" ++ PathEscape m.DoltDatabase ++ "?parseTime=true" := by
  refine ⟨rfl, rfl, rfl, ?_, ?_⟩
  · show ("127.0.0.1" : String) ++ ":" ++ FormatInt 3307 = "127.0.0.1:3307"
    decide
  have hu : (if m.ServerUser = "" then "root" else m.ServerUser) ≠ "" := by
    split
    · decide
    · assumption
  have ha : (if m.ServerHost = "" then "127.0.0.1" else m.ServerHost) ++ ":" ++
        FormatInt (if m.ServerPort = 0 then 3307 else m.ServerPort) ≠ "" := by
    intro h2
    have := congrArg String.data h2
    simp at this
  simp only [buildServerDSN, buildServerConfig, Config.FormatDSN]
  rw [if_pos hu, if_pos (by decide : ("tcp" : String) ≠ ""), if_pos ha]
  simp only [String.append_assoc, if_true]

set_option maxRecDepth 20000 in
/-- C9, the failing input evaluated: for a descriptor without host and port the DSN
addresses 127.0.0.1:3307, and the error of a failed ping names ":0" instead. -/
theorem newServerStore_unreachable_names_raw_fields :
    (newServerStore (fun _ => "") ⟨none, some "context deadline exceeded", none⟩
        { DoltDatabase := "beads_bb", DoltMode := "server" }).result =
      Except.error {
        msg := "cannot connect to Dolt server at :0: context deadline exceeded; " ++
          "check that the server is running and accessible",
        wrapped := some "context deadline exceeded" } ∧
    buildServerDSN (fun _ => "") { DoltDatabase := "beads_bb", DoltMode := "server" } =
      "root@tcp(127.0.0.1:3307)/beads_bb?parseTime=true" ∧
    (buildServerConfig (fun _ => "") { DoltDatabase := "beads_bb", DoltMode := "server" }).Addr =
      "127.0.0.1:3307" ∧
    ¬ Contains ("cannot connect to Dolt server at :0: context deadline exceeded; " ++
          "check that the server is running and accessible") "127.0.0.1:3307" := by
  refine ⟨by decide, by decide, by decide, ?_⟩
  decide

/-- C10: `newServerStore` returns a Store exactly when opening the pool, the ping and
`verifySchema` all succeed; the Store has mode `ServerMode` and holds the pool, which is
still open; when the ping or the schema verification fails the pool has been closed when
the error is returned (when `sql.Open` fails there is no pool); `verifySchema` returns an
error exactly when the probe query fails, and the error wraps the probe error and mentions
'bd init'. -/
theorem newServerStore_lifecycle (getenv : String → String) (drv : Driver) (m : Metadata) :
    ((∃ s, (newServerStore getenv drv m).result = Except.ok s) ↔
      (drv.openErr = none ∧ drv.pingErr = none ∧ verifySchema drv = none)) ∧
    (∀ s, (newServerStore getenv drv m).result = Except.ok s →
      s.mode = Mode.ServerMode ∧ s.db.closed = false ∧
      s.db.dsn = buildServerDSN getenv m ∧
      (newServerStore getenv drv m).pool = some s.db) ∧
    (drv.openErr = none → (drv.pingErr ≠ none ∨ verifySchema drv ≠ none) →
      ∃ e p, (newServerStore getenv drv m).result = Except.error e ∧
        (newServerStore getenv drv m).pool = some p ∧ p.closed = true) ∧
    (drv.openErr ≠ none → (newServerStore getenv drv m).pool = none) ∧
    (verifySchema drv ≠ none ↔ drv.probeErr ≠ none) ∧
    (∀ err, drv.probeErr = some err →
      ∃ e, verifySchema drv = some e ∧ e.wrapped = some err ∧
        Contains e.msg err ∧ Contains e.msg "'bd init'") := by
  rcases drv with ⟨o, p, q⟩
  refine ⟨?_, ?_, ?_, ?_, ?_, ?_⟩
  · cases o <;> cases p <;> cases q <;> simp [newServerStore, verifySchema]
  · intro s
    cases o <;> cases p <;> cases q <;> simp [newServerStore, verifySchema]
    intro h
    subst h
    simp
  · intro ho h
    cases o <;> cases p <;> cases q <;> simp_all [newServerStore, verifySchema]
  · intro ho
    cases o <;> simp_all [newServerStore]
  · cases q <;> simp [verifySchema]
  · intro err h
    simp only [] at h
    subst h
    refine ⟨_, rfl, rfl, ?_, ?_⟩
    · apply contains_append_left
      apply contains_append_left
      apply contains_append_left
      apply contains_append_right
      exact contains_self _
    · apply contains_append_right
      decide

/-- Witness for C10: a server that does not answer the ping, and a database without the
`ready_issues` view. -/
theorem newServerStore_lifecycle_witness :
    (∃ e p,
      (newServerStore (fun _ => "") ⟨none, some "context deadline exceeded", none⟩
        { DoltDatabase := "beads_bb", ServerHost := "10.11.0.1", ServerPort := 13307 }).result
        = Except.error e ∧
      (newServerStore (fun _ => "") ⟨none, some "context deadline exceeded", none⟩
        { DoltDatabase := "beads_bb", ServerHost := "10.11.0.1", ServerPort := 13307 }).pool
        = some p ∧ p.closed = true) ∧
    (∃ e, verifySchema ⟨none, none, some "Error 1146: table not found: ready_issues"⟩ = some e ∧
      e.wrapped = some "Error 1146: table not found: ready_issues" ∧
      Contains e.msg "Error 1146: table not found: ready_issues" ∧
      Contains e.msg "'bd init'") :=
  ⟨(newServerStore_lifecycle (fun _ => "") ⟨none, some "context deadline exceeded", none⟩
      { DoltDatabase := "beads_bb", ServerHost := "10.11.0.1", ServerPort := 13307 }).2.2.1
      rfl (Or.inl (by decide)),
   (newServerStore_lifecycle (fun _ => "")
      ⟨none, none, some "Error 1146: table not found: ready_issues"⟩
      { DoltDatabase := "beads_bb" }).2.2.2.2.2
      "Error 1146: table not found: ready_issues" rfl⟩

/-! ## Theorems: JSON round trip -/

theorem hexVal_lowerhex (k : Nat) (h : k < 16) : hexVal (lowerhex k) = some k := by
  interval_cases k <;> decide

theorem char_eq_of_toNat {c : Char} {n : Nat} (h : c.toNat = n) : c = Char.ofNat n := by
  rw [← h, Char.ofNat_toNat]

theorem scanStringFrom_plain (c : Char) (tail : List Char) (hq : c ≠ '"') (hb : c ≠ '\\')
    (h20 : ¬ c.toNat < 0x20) :
    scanStringFrom none (c :: tail) = consChar c (scanStringFrom none tail) := by
  rw [scanStringFrom.eq_def]
  simp [hq, hb, h20, flushPending]

theorem scanStringFrom_simple (e ch : Char) (tail : List Char) (hu : e ≠ 'u')
    (he : simpleEscape e = some ch) :
    scanStringFrom none ('\\' :: e :: tail) = consChar ch (scanStringFrom none tail) := by
  rw [scanStringFrom.eq_def]
  have hne : ('\\' = '"') = False := by decide
  simp only [hu, he, flushPending, hne, if_true, if_false]

theorem scanStringFrom_u (a b x y : Char) (n : Nat) (tail : List Char)
    (hh : hex4 a b x y = some n) (hs : ¬ (0xD800 ≤ n ∧ n < 0xE000)) :
    scanStringFrom none ('\\' :: 'u' :: a :: b :: x :: y :: tail) =
      consChar (Char.ofNat n) (scanStringFrom none tail) := by
  rw [scanStringFrom.eq_def]
  simp [hh, hs]

/-- The scanner reads back what `json.Marshal` writes for one character. -/
theorem scanStringFrom_escape (c : Char) (tail : List Char) :
    scanStringFrom none (jsonEscape c ++ tail) = consChar c (scanStringFrom none tail) := by
  unfold jsonEscape
  by_cases h80 : c.toNat < 0x80
  · rw [if_pos h80]
    by_cases hs : htmlSafe c = true
    · rw [if_pos hs]
      simp only [htmlSafe, decide_eq_true_eq, Bool.and_eq_true, Bool.decide_and] at hs
      obtain ⟨h20, -, hq, hb, -⟩ := hs
      exact scanStringFrom_plain c tail hq hb (by omega)
    · rw [if_neg hs]
      by_cases h1 : c = '\\' ∨ c = '"'
      · rw [if_pos h1]
        rcases h1 with h1 | h1 <;> subst h1 <;>
          exact scanStringFrom_simple _ _ tail (by decide) (by decide)
      · rw [if_neg h1]
        by_cases h8 : c.toNat = 8
        · rw [if_pos h8, char_eq_of_toNat h8]
          exact scanStringFrom_simple _ _ tail (by decide) (by decide)
        rw [if_neg h8]
        by_cases h12 : c.toNat = 12
        · rw [if_pos h12, char_eq_of_toNat h12]
          exact scanStringFrom_simple _ _ tail (by decide) (by decide)
        rw [if_neg h12]
        by_cases hn : c = '\n'
        · rw [if_pos hn, hn]
          exact scanStringFrom_simple _ _ tail (by decide) (by decide)
        rw [if_neg hn]
        by_cases hr : c = '\r'
        · rw [if_pos hr, hr]
          exact scanStringFrom_simple _ _ tail (by decide) (by decide)
        rw [if_neg hr]
        by_cases ht : c = '\t'
        · rw [if_pos ht, ht]
          exact scanStringFrom_simple _ _ tail (by decide) (by decide)
        rw [if_neg ht]
        have hx : hex4 '0' '0' (lowerhex (c.toNat / 16)) (lowerhex (c.toNat % 16))
            = some c.toNat := by
          unfold hex4
          rw [hexVal_lowerhex _ (by omega), hexVal_lowerhex _ (by omega)]
          have h0 : hexVal '0' = some 0 := by decide
          rw [h0]
          simp only [Option.some.injEq]
          omega
        have := scanStringFrom_u '0' '0' (lowerhex (c.toNat / 16)) (lowerhex (c.toNat % 16))
          c.toNat tail hx (by omega)
        rw [Char.ofNat_toNat] at this
        exact this
  · rw [if_neg h80]
    by_cases hl : c.toNat = 0x2028 ∨ c.toNat = 0x2029
    · rw [if_pos hl]
      have hx : hex4 '2' '0' '2' (lowerhex (c.toNat % 16)) = some c.toNat := by
        unfold hex4
        rw [hexVal_lowerhex _ (by omega)]
        have h0 : hexVal '0' = some 0 := by decide
        have h2 : hexVal '2' = some 2 := by decide
        rw [h0, h2]
        simp only [Option.some.injEq]
        omega
      have := scanStringFrom_u '2' '0' '2' (lowerhex (c.toNat % 16)) c.toNat tail hx (by omega)
      rw [Char.ofNat_toNat] at this
      exact this
    · rw [if_neg hl]
      refine scanStringFrom_plain c tail ?_ ?_ (by omega)
      · intro h; subst h; exact h80 (by decide)
      · intro h; subst h; exact h80 (by decide)

/-- The scanner reads back a string that `json.Marshal` wrote, up to its closing quote. -/
theorem scanString_jsonEscape (s rest : List Char) :
    scanString (s.flatMap jsonEscape ++ '"' :: rest) = some (s, rest) := by
  unfold scanString
  induction s with
  | nil =>
    rw [List.flatMap_nil, List.nil_append, scanStringFrom.eq_def]
    simp [flushPending]
  | cons c s ih =>
    rw [List.flatMap_cons, List.append_assoc, scanStringFrom_escape, ih]
    rfl

theorem digitChar_facts (k : Nat) (h : k < 10) :
    isDigit (Nat.digitChar k) = true ∧ (Nat.digitChar k).toNat - '0'.toNat = k ∧
      (k ≠ 0 → Nat.digitChar k ≠ '0') := by
  interval_cases k <;> decide

theorem digitsValue_append (l : List Char) (d : Char) :
    digitsValue (l ++ [d]) = digitsValue l * 10 + (d.toNat - '0'.toNat) := by
  simp [digitsValue, List.foldl_append]

/-- What `Nat.toDigitsCore 10` puts in front of its accumulator: a non-empty run of
decimal digits with the value of the number and without a leading zero. -/
theorem toDigitsCore_spec (fuel : Nat) : ∀ (n : Nat) (ds : List Char), n < fuel →
    ∃ l, Nat.toDigitsCore 10 fuel n ds = l ++ ds ∧ l ≠ [] ∧
      (∀ c ∈ l, isDigit c = true) ∧ digitsValue l = n ∧
      (0 < n → l.head? ≠ some '0') ∧ (n = 0 → l = ['0']) := by
  induction fuel with
  | zero => intro n ds h; omega
  | succ fuel ih =>
    intro n ds h
    obtain ⟨hd, hv, hz⟩ := digitChar_facts (n % 10) (Nat.mod_lt _ (by decide))
    unfold Nat.toDigitsCore
    by_cases h0 : n / 10 = 0
    · simp only [h0, if_true]
      have hn : n % 10 = n := by omega
      refine ⟨[Nat.digitChar (n % 10)], rfl, by simp, ?_, ?_, ?_, ?_⟩
      · intro c hc
        simp only [List.mem_singleton] at hc
        rw [hc]; exact hd
      · simp only [digitsValue, List.foldl_cons, List.foldl_nil]
        omega
      · intro hpos
        simp only [List.head?_cons, ne_eq, Option.some.injEq]
        exact hz (by omega)
      · intro hn0
        subst hn0
        rfl
    · simp only [h0, if_false]
      obtain ⟨l, hl, hne, hall, hval, hhead, -⟩ :=
        ih (n / 10) (Nat.digitChar (n % 10) :: ds) (by omega)
      refine ⟨l ++ [Nat.digitChar (n % 10)], ?_, by simp, ?_, ?_, ?_, ?_⟩
      · rw [hl]; simp
      · intro c hc
        rcases List.mem_append.mp hc with hc | hc
        · exact hall c hc
        · simp only [List.mem_singleton] at hc
          rw [hc]; exact hd
      · rw [digitsValue_append, hval, hv]
        omega
      · intro _
        cases l with
        | nil => exact absurd rfl hne
        | cons a l => simpa using hhead (by omega)
      · intro hn0
        omega

theorem toDigits_spec (n : Nat) :
    ∃ l, Nat.toDigits 10 n = l ∧ l ≠ [] ∧
      (∀ c ∈ l, isDigit c = true) ∧ digitsValue l = n ∧
      (0 < n → l.head? ≠ some '0') ∧ (n = 0 → l = ['0']) := by
  obtain ⟨l, hl, h⟩ := toDigitsCore_spec (n + 1) n [] (by omega)
  exact ⟨l, by rw [Nat.toDigits, hl, List.append_nil], h⟩

theorem takeDigits_append (l : List Char) (c : Char) (rest : List Char)
    (hall : ∀ x ∈ l, isDigit x = true) (hc : isDigit c = false) :
    takeDigits (l ++ c :: rest) = (l, c :: rest) := by
  induction l with
  | nil => simp [takeDigits, hc]
  | cons a l ih =>
    have ha := hall a (List.mem_cons_self _ _)
    have := ih (fun x hx => hall x (List.mem_cons_of_mem _ hx))
    simp [takeDigits, ha, this]

theorem isDigit_ne {a c : Char} (ha : isDigit a = true) (hc : isDigit c = false) : a ≠ c := by
  intro h
  rw [h, hc] at ha
  exact Bool.false_ne_true ha

theorem scanIntPart_digits (k : Nat) (c : Char) (rest : List Char) (hc : isDigit c = false) :
    scanIntPart (Nat.toDigits 10 k ++ c :: rest) = some (Nat.toDigits 10 k, c :: rest) := by
  obtain ⟨l, hl, hne, hall, -, hhead, hzero⟩ := toDigits_spec k
  rw [hl]
  cases l with
  | nil => exact absurd rfl hne
  | cons a l =>
    have ha := hall a (List.mem_cons_self _ _)
    have hl' := takeDigits_append l c rest (fun x hx => hall x (List.mem_cons_of_mem _ hx)) hc
    by_cases h0 : a = '0'
    · have hk : k = 0 := by
        by_contra hk
        exact hhead (Nat.pos_of_ne_zero hk) (by simp [h0])
      have := hzero hk
      simp only [List.cons.injEq] at this
      obtain ⟨-, hnil⟩ := this
      subst hnil
      subst h0
      simp [scanIntPart]
    · simp [scanIntPart, h0, ha, hl']

theorem scanNumber_formatInt (n : Int) (c : Char) (rest : List Char)
    (hc : isDigit c = false) (hdot : c ≠ '.') (he : c ≠ 'e') (hE : c ≠ 'E') :
    scanNumber ((FormatInt n).data ++ c :: rest) = some ((FormatInt n).data, c :: rest) := by
  have hfrac : scanFrac (c :: rest) = some ([], c :: rest) := by simp [scanFrac, hdot]
  have hexp : scanExp (c :: rest) = some ([], c :: rest) := by simp [scanExp, he, hE]
  have hint := scanIntPart_digits n.natAbs c rest hc
  obtain ⟨l, hl, hne, hall, -, -, -⟩ := toDigits_spec n.natAbs
  unfold FormatInt
  by_cases hneg : n < 0
  · simp only [hneg, if_true, List.cons_append]
    unfold scanNumber
    simp [hint, hfrac, hexp]
  · simp only [hneg, if_false]
    rw [hl] at hint ⊢
    cases l with
    | nil => exact absurd rfl hne
    | cons a l =>
      have ha := hall a (List.mem_cons_self _ _)
      have hm : a ≠ '-' := isDigit_ne ha (by decide)
      unfold scanNumber
      simp only [List.cons_append, hm, if_false]
      rw [← List.cons_append, hint]
      simp [hfrac, hexp]

theorem parseInt64_formatInt (n : Int) (hlo : -(2 : Int) ^ 63 ≤ n) (hhi : n < (2 : Int) ^ 63) :
    parseInt64 (FormatInt n).data = some n := by
  obtain ⟨l, hl, hne, hall, hval, -, -⟩ := toDigits_spec n.natAbs
  have hall' : l.all isDigit = true := by
    rw [List.all_eq_true]; exact hall
  unfold FormatInt
  by_cases hneg : n < 0
  · simp only [hneg, if_true]
    unfold parseInt64
    simp only [hl, if_true]
    have hv : -(digitsValue l : Int) = n := by rw [hval]; omega
    have hlo' : (-9223372036854775808 : Int) ≤ n := by norm_num at hlo; exact hlo
    have hhi' : n < (9223372036854775808 : Int) := by norm_num at hhi; exact hhi
    simp [hne, hall', hv, hlo', hhi']
  · simp only [hneg, if_false]
    rw [hl]
    cases l with
    | nil => exact absurd rfl hne
    | cons a l =>
      have ha := hall a (List.mem_cons_self _ _)
      have hm : a ≠ '-' := isDigit_ne ha (by decide)
      have hp : a ≠ '+' := isDigit_ne ha (by decide)
      unfold parseInt64
      simp only [hm, hp, if_false]
      have hv : (digitsValue (a :: l) : Int) = n := by rw [hval]; omega
      have hlo' : (-9223372036854775808 : Int) ≤ n := by norm_num at hlo; exact hlo
      have hhi' : n < (9223372036854775808 : Int) := by norm_num at hhi; exact hhi
      simp [hall', hv, hlo', hhi']

theorem formatInt_head (n : Int) :
    ∃ a l, (FormatInt n).data = a :: l ∧ (a = '-' ∨ isDigit a = true) := by
  obtain ⟨l, hl, hne, hall, -, -, -⟩ := toDigits_spec n.natAbs
  unfold FormatInt
  by_cases hneg : n < 0
  · simp only [hneg, if_true]
    exact ⟨'-', _, rfl, Or.inl rfl⟩
  · simp only [hneg, if_false]
    rw [hl]
    cases l with
    | nil => exact absurd rfl hne
    | cons a l => exact ⟨a, l, rfl, Or.inr (hall a (List.mem_cons_self _ _))⟩

theorem scanValue_string (g depth : Nat) (s rest : List Char) :
    scanValue (g + 1) depth ('"' :: (s.flatMap jsonEscape ++ '"' :: rest)) =
      some (JVal.str s, rest) := by
  rw [scanValue]
  simp [skipSpace, isSpace, scanString_jsonEscape]

theorem scanValue_jsonString (g depth : Nat) (s : String) (rest : List Char) :
    scanValue (g + 1) depth (jsonString s ++ rest) = some (JVal.str s.data, rest) := by
  unfold jsonString
  rw [List.cons_append, List.append_assoc]
  exact scanValue_string g depth s.data rest

theorem scanValue_formatInt (g depth : Nat) (n : Int) (c : Char) (rest : List Char)
    (hc : isDigit c = false) (hdot : c ≠ '.') (he : c ≠ 'e') (hE : c ≠ 'E') :
    scanValue (g + 1) depth ((FormatInt n).data ++ c :: rest) =
      some (JVal.num (FormatInt n).data, c :: rest) := by
  have hnum := scanNumber_formatInt n c rest hc hdot he hE
  obtain ⟨a, l, hal, ha⟩ := formatInt_head n
  rw [hal] at hnum ⊢
  rw [List.cons_append] at hnum ⊢
  rw [scanValue]
  rcases ha with ha | ha
  · subst ha
    simp [skipSpace, isSpace, hnum]
  · have hs1 : a ≠ ' ' := isDigit_ne ha (by decide)
    have hs2 : a ≠ '\t' := isDigit_ne ha (by decide)
    have hs3 : a ≠ '\r' := isDigit_ne ha (by decide)
    have hs4 : a ≠ '\n' := isDigit_ne ha (by decide)
    have h1 : isSpace a = false := by simp [isSpace, hs1, hs2, hs3, hs4]
    have hq : a ≠ '"' := isDigit_ne ha (by decide)
    have hb : a ≠ '{' := isDigit_ne ha (by decide)
    have hk : a ≠ '[' := isDigit_ne ha (by decide)
    have ht : a ≠ 't' := isDigit_ne ha (by decide)
    have hf : a ≠ 'f' := isDigit_ne ha (by decide)
    have hn : a ≠ 'n' := isDigit_ne ha (by decide)
    simp [skipSpace, h1, hq, hb, hk, ht, hf, hn, ha, hnum]

/-- One member of an object that is followed by another one. -/
theorem scanMembers_comma (pv : List Char → Option (JVal × List Char)) (f : Nat)
    (name : String) (v : JVal) (val rest : List Char)
    (hname : name.data.flatMap jsonEscape = name.data)
    (hv : pv (val ++ ',' :: '"' :: rest) = some (v, ',' :: '"' :: rest)) :
    scanMembers pv (f + 1) ('"' :: (name.data ++ '"' :: ':' :: (val ++ ',' :: '"' :: rest))) =
      (scanMembers pv f ('"' :: rest)).map fun p => ((name.data, v) :: p.1, p.2) := by
  rw [scanMembers.eq_def]
  have hs := scanString_jsonEscape name.data (':' :: (val ++ ',' :: '"' :: rest))
  rw [hname] at hs
  simp [hs, skipSpace, isSpace, hv]

/-- The last member of an object. -/
theorem scanMembers_last (pv : List Char → Option (JVal × List Char)) (f : Nat)
    (name : String) (v : JVal) (val rest : List Char)
    (hname : name.data.flatMap jsonEscape = name.data)
    (hv : pv (val ++ '}' :: rest) = some (v, '}' :: rest)) :
    scanMembers pv (f + 1) ('"' :: (name.data ++ '"' :: ':' :: (val ++ '}' :: rest))) =
      some ([(name.data, v)], rest) := by
  rw [scanMembers.eq_def]
  have hs := scanString_jsonEscape name.data (':' :: (val ++ '}' :: rest))
  rw [hname] at hs
  simp [hs, skipSpace, isSpace, hv]

/-- The scanner reads the document `json.Marshal` writes for a descriptor as an object
with the six fields. -/
theorem parseJSON_marshal (d : Metadata) :
    parseJSON (Marshal d) = some (JVal.obj [
      ("backend".data, JVal.str d.Backend.data),
      ("dolt_database".data, JVal.str d.DoltDatabase.data),
      ("dolt_mode".data, JVal.str d.DoltMode.data),
      ("dolt_server_host".data, JVal.str d.ServerHost.data),
      ("dolt_server_port".data, JVal.num (FormatInt d.ServerPort).data),
      ("dolt_server_user".data, JVal.str d.ServerUser.data)]) := by
  have hlen : ∃ f, (Marshal d).length = f + 6 := by
    refine ⟨(Marshal d).length - 6, ?_⟩
    have : 6 ≤ (Marshal d).length := by
      simp only [Marshal, jsonKey, String.length, List.length_cons, List.length_append]
      omega
    omega
  obtain ⟨f, hf⟩ := hlen
  unfold parseJSON
  rw [hf]
  have hdata : (Marshal d).data = '\x7b' :: '"' :: ("backend".data ++ '"' :: ':' ::
      (jsonString d.Backend ++ ',' :: '"' :: ("dolt_database".data ++ '"' :: ':' ::
      (jsonString d.DoltDatabase ++ ',' :: '"' :: ("dolt_mode".data ++ '"' :: ':' ::
      (jsonString d.DoltMode ++ ',' :: '"' :: ("dolt_server_host".data ++ '"' :: ':' ::
      (jsonString d.ServerHost ++ ',' :: '"' :: ("dolt_server_port".data ++ '"' :: ':' ::
      ((FormatInt d.ServerPort).data ++ ',' :: '"' :: ("dolt_server_user".data ++ '"' :: ':' ::
      (jsonString d.ServerUser ++ '\x7d' :: [])))))))))))) := by
    simp only [Marshal, jsonKey, List.cons_append, List.append_assoc, List.nil_append]
  rw [hdata, scanValue]
  have hsp : skipSpace ('\x7b' :: '"' :: ("backend".data ++ '"' :: ':' ::
      (jsonString d.Backend ++ ',' :: '"' :: ("dolt_database".data ++ '"' :: ':' ::
      (jsonString d.DoltDatabase ++ ',' :: '"' :: ("dolt_mode".data ++ '"' :: ':' ::
      (jsonString d.DoltMode ++ ',' :: '"' :: ("dolt_server_host".data ++ '"' :: ':' ::
      (jsonString d.ServerHost ++ ',' :: '"' :: ("dolt_server_port".data ++ '"' :: ':' ::
      ((FormatInt d.ServerPort).data ++ ',' :: '"' :: ("dolt_server_user".data ++ '"' :: ':' ::
      (jsonString d.ServerUser ++ '\x7d' :: [])))))))))))))
      = '\x7b' :: '"' :: ("backend".data ++ '"' :: ':' ::
      (jsonString d.Backend ++ ',' :: '"' :: ("dolt_database".data ++ '"' :: ':' ::
      (jsonString d.DoltDatabase ++ ',' :: '"' :: ("dolt_mode".data ++ '"' :: ':' ::
      (jsonString d.DoltMode ++ ',' :: '"' :: ("dolt_server_host".data ++ '"' :: ':' ::
      (jsonString d.ServerHost ++ ',' :: '"' :: ("dolt_server_port".data ++ '"' :: ':' ::
      ((FormatInt d.ServerPort).data ++ ',' :: '"' :: ("dolt_server_user".data ++ '"' :: ':' ::
      (jsonString d.ServerUser ++ '\x7d' :: [])))))))))))) := by
    rw [skipSpace]
    simp [isSpace]
  rw [hsp]
  have hq : skipSpace ('"' :: ("backend".data ++ '"' :: ':' ::
      (jsonString d.Backend ++ ',' :: '"' :: ("dolt_database".data ++ '"' :: ':' ::
      (jsonString d.DoltDatabase ++ ',' :: '"' :: ("dolt_mode".data ++ '"' :: ':' ::
      (jsonString d.DoltMode ++ ',' :: '"' :: ("dolt_server_host".data ++ '"' :: ':' ::
      (jsonString d.ServerHost ++ ',' :: '"' :: ("dolt_server_port".data ++ '"' :: ':' ::
      ((FormatInt d.ServerPort).data ++ ',' :: '"' :: ("dolt_server_user".data ++ '"' :: ':' ::
      (jsonString d.ServerUser ++ '\x7d' :: [])))))))))))))
      = '"' :: ("backend".data ++ '"' :: ':' ::
      (jsonString d.Backend ++ ',' :: '"' :: ("dolt_database".data ++ '"' :: ':' ::
      (jsonString d.DoltDatabase ++ ',' :: '"' :: ("dolt_mode".data ++ '"' :: ':' ::
      (jsonString d.DoltMode ++ ',' :: '"' :: ("dolt_server_host".data ++ '"' :: ':' ::
      (jsonString d.ServerHost ++ ',' :: '"' :: ("dolt_server_port".data ++ '"' :: ':' ::
      ((FormatInt d.ServerPort).data ++ ',' :: '"' :: ("dolt_server_user".data ++ '"' :: ':' ::
      (jsonString d.ServerUser ++ '\x7d' :: [])))))))))))) := by
    rw [skipSpace]
    simp [isSpace]
  have hbrace : ('\x7b' = '"') = False := by decide
  have hbrace2 : ('"' = '\x7d') = False := by decide
  have hdepth : (0 + 1 > maxNestingDepth) = False := by
    simp [maxNestingDepth]
  simp only [hbrace, if_false, if_true, hdepth, hq, hbrace2]
  rw [scanMembers_comma _ _ "backend" _ _ _ (by decide) (scanValue_jsonString _ _ _ _),
    scanMembers_comma _ _ "dolt_database" _ _ _ (by decide) (scanValue_jsonString _ _ _ _),
    scanMembers_comma _ _ "dolt_mode" _ _ _ (by decide) (scanValue_jsonString _ _ _ _),
    scanMembers_comma _ _ "dolt_server_host" _ _ _ (by decide) (scanValue_jsonString _ _ _ _),
    scanMembers_comma _ _ "dolt_server_port" _ _ _ (by decide)
      (scanValue_formatInt _ _ _ _ _ (by decide) (by decide) (by decide) (by decide)),
    scanMembers_last _ _ "dolt_server_user" _ _ _ (by decide) (scanValue_jsonString _ _ _ _)]
  simp [skipSpace]

/-- Decoding what `json.Marshal` wrote for a descriptor gives the descriptor back. -/
theorem unmarshal_marshal (syntaxText : String → String) (d : Metadata)
    (hport : d.PortInRange) : Unmarshal syntaxText (Marshal d) = Except.ok d := by
  unfold Unmarshal
  rw [parseJSON_marshal]
  have h1 : findField "backend".data = some "backend" := by decide
  have h2 : findField "dolt_database".data = some "dolt_database" := by decide
  have h3 : findField "dolt_mode".data = some "dolt_mode" := by decide
  have h4 : findField "dolt_server_host".data = some "dolt_server_host" := by decide
  have h5 : findField "dolt_server_port".data = some "dolt_server_port" := by decide
  have h6 : findField "dolt_server_user".data = some "dolt_server_user" := by decide
  have hp := parseInt64_formatInt d.ServerPort hport.1 hport.2
  simp only [decodeMetadata, List.foldl_cons, List.foldl_nil, storeMember, h1, h2, h3, h4, h5,
    h6, storeString, storeInt, hp]
  simp

/-- C8: for every descriptor with a non-empty database name (and a port that fits a Go
`int`), loading the file that holds its JSON serialization under the `Metadata` field names
succeeds, and the loaded descriptor has the same connection mode as the original, and the
same host, port and user: it is the original descriptor. -/
theorem loadMetadata_roundtrip (sys : Sys) (beadsDir : String) (d : Metadata)
    (hvalid : d.IsValid = true) (hport : d.PortInRange)
    (hfile : sys.files (Join beadsDir "metadata.json") = FileState.file (Marshal d)) :
    ∃ d', LoadMetadata sys beadsDir = Except.ok d' ∧
      d'.ConnectionMode = d.ConnectionMode ∧
      d'.ServerHost = d.ServerHost ∧ d'.ServerPort = d.ServerPort ∧
      d'.ServerUser = d.ServerUser ∧ d' = d := by
  refine ⟨d, ?_, rfl, rfl, rfl, rfl, rfl⟩
  simp [LoadMetadata, ReadFile, hfile, unmarshal_marshal sys.syntaxText d hport, hvalid]

/-- Witness for C8: the server descriptor of `TestLoadMetadata_ServerMode`, serialized and
loaded again. -/
theorem loadMetadata_roundtrip_witness :
    ∃ d', LoadMetadata (worldWith (Marshal serverExample)) "/p/.beads" = Except.ok d' ∧
      d'.ConnectionMode = serverExample.ConnectionMode ∧
      d'.ServerHost = serverExample.ServerHost ∧ d'.ServerPort = serverExample.ServerPort ∧
      d'.ServerUser = serverExample.ServerUser ∧ d' = serverExample :=
  loadMetadata_roundtrip (worldWith (Marshal serverExample)) "/p/.beads" serverExample
    (by decide) (by decide)
    (by
      show (if Join "/p/.beads" "metadata.json" = "/p/.beads/metadata.json"
        then FileState.file (Marshal serverExample)
        else FileState.openFails Errno.ENOENT) = FileState.file (Marshal serverExample)
      exact if_pos (by decide))

/-! ## Theorems: the DSN builder against the driver's parser -/

theorem char_valid (c : Char) : c.toNat.isValidChar := c.valid

theorem char_toNat_lt (c : Char) : c.toNat < 0x110000 := by
  have h := char_valid c
  unfold Nat.isValidChar at h
  omega

theorem toNat_ofNat_of_valid (n : Nat) (h : n.isValidChar) : (Char.ofNat n).toNat = n := by
  unfold Char.ofNat
  rw [dif_pos h]
  rfl

theorem runeOf_toNat (c : Char) : runeOf c.toNat = c := by
  unfold runeOf
  rw [if_pos (char_valid c), Char.ofNat_toNat]

theorem splitLast_none (c : Char) (b : List Char) (h : c ∉ b) : splitLast c b = none := by
  induction b with
  | nil => rfl
  | cons x xs ih =>
    have hx : x ≠ c := fun e => h (e ▸ List.mem_cons_self _ _)
    have := ih (fun m => h (List.mem_cons_of_mem _ m))
    simp [splitLast, this, hx]

theorem splitLast_append (c : Char) (a b : List Char) (h : c ∉ b) :
    splitLast c (a ++ c :: b) = some (a, b) := by
  induction a with
  | nil => simp [splitLast, splitLast_none c b h]
  | cons x xs ih => simp [splitLast, ih]

theorem splitFirst_none (c : Char) (a : List Char) (h : c ∉ a) : splitFirst c a = none := by
  induction a with
  | nil => rfl
  | cons x xs ih =>
    have hx : x ≠ c := fun e => h (e ▸ List.mem_cons_self _ _)
    have := ih (fun m => h (List.mem_cons_of_mem _ m))
    simp [splitFirst, this, hx]

theorem splitFirst_append (c : Char) (a b : List Char) (h : c ∉ a) :
    splitFirst c (a ++ c :: b) = some (a, b) := by
  induction a with
  | nil => simp [splitFirst]
  | cons x xs ih =>
    have hx : x ≠ c := fun e => h (e ▸ List.mem_cons_self _ _)
    have := ih (fun m => h (List.mem_cons_of_mem _ m))
    simp [splitFirst, this, hx]

theorem utf8Bytes_lt (c : Char) : ∀ b ∈ utf8Bytes c, b < 256 := by
  have hc := char_toNat_lt c
  intro b hb
  unfold utf8Bytes at hb
  split at hb
  · simp at hb; omega
  · split at hb
    · simp at hb; omega
    · split at hb
      · simp at hb; omega
      · simp at hb; omega

/-- Decoding the UTF-8 bytes of a character gives the character back. -/
theorem utf8DecodeFrom_bytes (c : Char) (rest : List Nat) :
    utf8DecodeFrom none (utf8Bytes c ++ rest) = c :: utf8DecodeFrom none rest := by
  have hc := char_toNat_lt c
  have hr := runeOf_toNat c
  unfold utf8Bytes
  by_cases h1 : c.toNat < 0x80
  · rw [if_pos h1]
    simp only [List.cons_append, List.nil_append]
    simp only [utf8DecodeFrom, h1, if_true, hr]
  · rw [if_neg h1]
    by_cases h2 : c.toNat < 0x800
    · rw [if_pos h2]
      have l1 : utf8Lead (0xC0 + c.toNat / 64) = some (c.toNat / 64, 1) := by
        unfold utf8Lead
        rw [if_pos (by omega)]
        simp
      have n1 : ¬ (0xC0 + c.toNat / 64 < 0x80) := by omega
      have k1 : 0x80 ≤ 0x80 + c.toNat % 64 ∧ 0x80 + c.toNat % 64 < 0xC0 := by omega
      have e2 : c.toNat / 64 * 64 + (0x80 + c.toNat % 64 - 0x80) = c.toNat := by omega
      simp only [List.cons_append, List.nil_append]
      simp only [utf8DecodeFrom, n1, if_false, l1, k1, and_self, if_true, le_refl, e2, hr]
    · rw [if_neg h2]
      by_cases h3 : c.toNat < 0x10000
      · rw [if_pos h3]
        have l1 : utf8Lead (0xE0 + c.toNat / 4096) = some (c.toNat / 4096, 2) := by
          unfold utf8Lead
          rw [if_neg (by omega), if_pos (by omega)]
          simp
        have n1 : ¬ (0xE0 + c.toNat / 4096 < 0x80) := by omega
        have k1 : 0x80 ≤ 0x80 + c.toNat / 64 % 64 ∧ 0x80 + c.toNat / 64 % 64 < 0xC0 := by omega
        have k2 : 0x80 ≤ 0x80 + c.toNat % 64 ∧ 0x80 + c.toNat % 64 < 0xC0 := by omega
        have e2 : (c.toNat / 4096 * 64 + (0x80 + c.toNat / 64 % 64 - 0x80)) * 64 +
            (0x80 + c.toNat % 64 - 0x80) = c.toNat := by omega
        have m1 : ¬ ((2 : Nat) ≤ 1) := by omega
        simp only [List.cons_append, List.nil_append]
        simp only [utf8DecodeFrom, n1, if_false, l1, k1, k2, and_self, if_true, m1,
          Nat.add_one_sub_one, le_refl, e2, hr]
      · rw [if_neg h3]
        have l1 : utf8Lead (0xF0 + c.toNat / 262144) = some (c.toNat / 262144, 3) := by
          unfold utf8Lead
          rw [if_neg (by omega), if_neg (by omega), if_pos (by omega)]
          simp
        have n1 : ¬ (0xF0 + c.toNat / 262144 < 0x80) := by omega
        have k0 : 0x80 ≤ 0x80 + c.toNat / 4096 % 64 ∧ 0x80 + c.toNat / 4096 % 64 < 0xC0 := by
          omega
        have k1 : 0x80 ≤ 0x80 + c.toNat / 64 % 64 ∧ 0x80 + c.toNat / 64 % 64 < 0xC0 := by omega
        have k2 : 0x80 ≤ 0x80 + c.toNat % 64 ∧ 0x80 + c.toNat % 64 < 0xC0 := by omega
        have e2 : ((c.toNat / 262144 * 64 + (0x80 + c.toNat / 4096 % 64 - 0x80)) * 64 +
            (0x80 + c.toNat / 64 % 64 - 0x80)) * 64 + (0x80 + c.toNat % 64 - 0x80)
            = c.toNat := by omega
        have m1 : ¬ ((3 : Nat) ≤ 1) := by omega
        have m2 : ¬ ((2 : Nat) ≤ 1) := by omega
        have m3 : (3 : Nat) - 1 = 2 := rfl
        have m4 : (2 : Nat) - 1 = 1 := rfl
        simp only [List.cons_append, List.nil_append]
        simp only [utf8DecodeFrom, n1, if_false, l1, k0, k1, k2, and_self, if_true, m1, m2, m3,
          m4, le_refl, e2, hr]

theorem utf8DecodeFrom_flatMap (s : List Char) :
    utf8DecodeFrom none (s.flatMap utf8Bytes) = s := by
  induction s with
  | nil => rfl
  | cons c s ih => rw [List.flatMap_cons, utf8DecodeFrom_bytes, ih]

theorem hexVal_upperhex (k : Nat) (h : k < 16) : hexVal (upperhex k) = some k := by
  interval_cases k <;> decide

theorem upperhex_ne (k : Nat) (h : k < 16) :
    upperhex k ≠ '/' ∧ upperhex k ≠ '?' := by
  interval_cases k <;> decide

theorem shouldEscape_lt {b : Nat} (h : shouldEscape b = false) : b < 128 := by
  by_contra hb
  have : shouldEscape b = true := by
    simp only [shouldEscape, decide_eq_true_eq]
    have e1 : 'a'.toNat = 97 := rfl
    have e2 : 'z'.toNat = 122 := rfl
    have e3 : 'A'.toNat = 65 := rfl
    have e4 : 'Z'.toNat = 90 := rfl
    have e5 : '0'.toNat = 48 := rfl
    have e6 : '9'.toNat = 57 := rfl
    have e7 : '-'.toNat = 45 := rfl
    have e8 : '_'.toNat = 95 := rfl
    have e9 : '.'.toNat = 46 := rfl
    have e10 : '~'.toNat = 126 := rfl
    have e11 : '$'.toNat = 36 := rfl
    have e12 : '&'.toNat = 38 := rfl
    have e13 : '+'.toNat = 43 := rfl
    have e14 : '='.toNat = 61 := rfl
    have e15 : ':'.toNat = 58 := rfl
    have e16 : '@'.toNat = 64 := rfl
    rw [e1, e2, e3, e4, e5, e6, e7, e8, e9, e10, e11, e12, e13, e14, e15, e16]
    omega
  rw [h] at this
  exact Bool.false_ne_true this

theorem ofNat_ne_of_shouldEscape {b : Nat} (h : shouldEscape b = false) (x : Char)
    (hx : shouldEscape x.toNat = true) : Char.ofNat b ≠ x := by
  intro e
  have hb := shouldEscape_lt h
  have hv : b.isValidChar := by
    unfold Nat.isValidChar
    omega
  have := toNat_ofNat_of_valid b hv
  rw [e] at this
  rw [this, h] at hx
  exact Bool.false_ne_true hx

theorem unescapeBytes_escapeByte (b : Nat) (hb : b < 256) (rest : List Char) :
    unescapeBytes (escapeByte b ++ rest) = (unescapeBytes rest).map fun bs => b :: bs := by
  unfold escapeByte
  cases h : shouldEscape b
  · have hlt := shouldEscape_lt h
    have hv : b.isValidChar := by
      unfold Nat.isValidChar
      omega
    have hne : Char.ofNat b ≠ '%' := ofNat_ne_of_shouldEscape h '%' (by decide)
    have hu : utf8Bytes (Char.ofNat b) = [b] := by
      unfold utf8Bytes
      rw [toNat_ofNat_of_valid b hv, if_pos hlt]
    simp only [Bool.false_eq_true, if_false, List.cons_append, List.nil_append]
    rw [unescapeBytes.eq_def]
    simp only [hne, if_false, hu, List.cons_append, List.nil_append]
  · simp only [if_true, List.cons_append, List.nil_append]
    rw [unescapeBytes.eq_def]
    simp only [if_true, hexVal_upperhex (b / 16) (by omega), hexVal_upperhex (b % 16) (by omega)]
    have e : b / 16 * 16 + b % 16 = b := by omega
    rw [e]

theorem unescapeBytes_escapeBytes (bs : List Nat) (hbs : ∀ b ∈ bs, b < 256)
    (rest : List Char) :
    unescapeBytes (bs.flatMap escapeByte ++ rest) =
      (unescapeBytes rest).map fun r => bs ++ r := by
  induction bs with
  | nil => simp
  | cons b bs ih =>
    rw [List.flatMap_cons, List.append_assoc,
      unescapeBytes_escapeByte b (hbs b (List.mem_cons_self _ _)),
      ih (fun x hx => hbs x (List.mem_cons_of_mem _ hx))]
    cases unescapeBytes rest <;> simp

theorem unescapeBytes_pathEscape (s : List Char) :
    unescapeBytes (s.flatMap fun c => (utf8Bytes c).flatMap escapeByte) =
      some (s.flatMap utf8Bytes) := by
  induction s with
  | nil => rfl
  | cons c s ih =>
    rw [List.flatMap_cons, unescapeBytes_escapeBytes _ (utf8Bytes_lt c), ih]
    simp

/-- `url.PathUnescape` undoes `url.PathEscape`. -/
theorem pathUnescape_pathEscape (s : String) : PathUnescape (PathEscape s).data = some s := by
  unfold PathUnescape PathEscape
  rw [unescapeBytes_pathEscape]
  simp [utf8DecodeFrom_flatMap]

theorem escapeByte_ne (b : Nat) (hb : b < 256) :
    ∀ x ∈ escapeByte b, x ≠ '/' ∧ x ≠ '?' := by
  intro x hx
  unfold escapeByte at hx
  cases h : shouldEscape b
  · simp only [h, Bool.false_eq_true, if_false, List.mem_singleton] at hx
    subst hx
    exact ⟨ofNat_ne_of_shouldEscape h '/' (by decide),
      ofNat_ne_of_shouldEscape h '?' (by decide)⟩
  · simp only [h, if_true, List.mem_cons, List.mem_nil_iff, or_false] at hx
    rcases hx with hx | hx | hx
    · subst hx; exact ⟨by decide, by decide⟩
    · subst hx; exact upperhex_ne _ (by omega)
    · subst hx; exact upperhex_ne _ (by omega)

/-- A path-escaped name contains neither '/' nor '?'. -/
theorem pathEscape_ne (s : String) : ∀ x ∈ (PathEscape s).data, x ≠ '/' ∧ x ≠ '?' := by
  intro x hx
  unfold PathEscape at hx
  simp only [List.mem_flatMap] at hx
  obtain ⟨c, -, b, hb, hx⟩ := hx
  exact escapeByte_ne b (utf8Bytes_lt c b hb) x hx

/-- The decimal form of a number consists of digits and at most a minus sign. -/
theorem formatInt_chars (n : Int) :
    ∀ x ∈ (FormatInt n).data, x = '-' ∨ isDigit x = true := by
  obtain ⟨l, hl, -, hall, -, -, -⟩ := toDigits_spec n.natAbs
  intro x hx
  unfold FormatInt at hx
  split at hx
  · rw [hl] at hx
    rcases List.mem_cons.mp hx with h | h
    · exact Or.inl h
    · exact Or.inr (hall x h)
  · rw [hl] at hx
    exact Or.inr (hall x hx)

theorem string_ne_empty_data {s : String} (h : s ≠ "") : s.data ≠ [] := by
  intro h2
  apply h
  apply String.ext
  simp [h2]

/-- The driver's parser recovers a TCP `Config` from its formatted DSN when the user is
not empty and has no ':', and the address has no '@' and is a host:port that
`net.SplitHostPort` accepts. -/
theorem parseDSN_formatDSN_tcp (user pw addr db : String) (hu0 : user ≠ "")
    (hu : ':' ∉ user.data) (ha : '@' ∉ addr.data) (ha0 : addr ≠ "")
    (hs : splitHostPortOK addr.data = true) :
    ParseDSN (Config.FormatDSN
      { User := user, Passwd := pw, Net := "tcp", Addr := addr, DBName := db,
        ParseTime := true }) =
    Except.ok
      { User := user, Passwd := pw, Net := "tcp", Addr := addr, DBName := db,
        ParseTime := true } := by
  have hE := pathEscape_ne db
  have hq : ∀ x ∈ "parseTime=true".data, x ≠ '/' := by decide
  -- the text of the DSN
  have hdata : (Config.FormatDSN
      { User := user, Passwd := pw, Net := "tcp", Addr := addr, DBName := db,
        ParseTime := true }).data =
      ((user.data ++ (if pw ≠ "" then ':' :: pw.data else [])) ++
        '@' :: ('t' :: 'c' :: 'p' :: '(' :: (addr.data ++ [')']))) ++
        '/' :: ((PathEscape db).data ++ '?' :: "parseTime=true".data) := by
    unfold Config.FormatDSN
    simp only [hu0, ha0, ne_eq, not_false_eq_true, if_true,
      (by decide : ("tcp" : String) ≠ "")]
    by_cases hp : pw = ""
    · simp [hp]
    · simp [hp]
  have hright : '/' ∉ (PathEscape db).data ++ '?' :: "parseTime=true".data := by
    intro hm
    rcases List.mem_append.mp hm with h | h
    · exact (hE _ h).1 rfl
    · rcases List.mem_cons.mp h with h | h
      · exact absurd h (by decide)
      · exact hq _ h rfl
  have hnet : '@' ∉ 't' :: 'c' :: 'p' :: '(' :: (addr.data ++ [')']) := by
    intro hm
    simp only [List.mem_cons, List.mem_append, List.mem_singleton, List.mem_nil_iff,
      or_false] at hm
    rcases hm with h | h | h | h | h | h
    · exact absurd h (by decide)
    · exact absurd h (by decide)
    · exact absurd h (by decide)
    · exact absurd h (by decide)
    · exact ha h
    · exact absurd h (by decide)
  have hcred : (match splitFirst ':' (user.data ++ (if pw ≠ "" then ':' :: pw.data else []))
      with
      | some p => (p.1, p.2)
      | none => (user.data ++ (if pw ≠ "" then ':' :: pw.data else []), [])) =
      (user.data, pw.data) := by
    by_cases hp : pw = ""
    · simp [hp, splitFirst_none ':' user.data hu]
    · simp [hp, splitFirst_append ':' user.data pw.data hu]
  have hna : parseNetAddr ('t' :: 'c' :: 'p' :: '(' :: (addr.data ++ [')'])) =
      Except.ok ("tcp".data, addr.data) := by
    unfold parseNetAddr
    have h1 : splitFirst '(' ('t' :: 'c' :: 'p' :: '(' :: (addr.data ++ [')'])) =
        some ("tcp".data, addr.data ++ [')']) := by
      simp [splitFirst]
    have h2 : ('t' :: 'c' :: 'p' :: '(' :: (addr.data ++ [')'])).getLast? = some ')' := by
      have : 't' :: 'c' :: 'p' :: '(' :: (addr.data ++ [')']) =
          ('t' :: 'c' :: 'p' :: '(' :: addr.data) ++ [')'] := by simp
      rw [this, List.getLast?_append]
      simp
    rw [h1]
    simp only [h2, ne_eq, not_true_eq_false, if_false, List.dropLast_concat]
  have hparams : parseDSNParams false (splitChar '&' "parseTime=true".data) =
      Except.ok true := by decide
  have hqm : '?' ∉ (PathEscape db).data := fun h => (hE _ h).2 rfl
  unfold ParseDSN
  rw [hdata, splitLast_append '/' _ _ hright]
  simp only [splitLast_append '@' _ _ hnet, hcred, hna,
    splitFirst_append '?' _ _ hqm, hparams, pathUnescape_pathEscape]
  unfold Config.normalize
  simp [ha0, ensureHavePort, hs]

/-- An address `host:port` is accepted by `net.SplitHostPort` when the host has no colon
and no bracket. -/
theorem splitHostPortOK_plain (host : String) (port : Int) (h1 : ':' ∉ host.data)
    (h2 : '[' ∉ host.data) (h3 : ']' ∉ host.data) :
    splitHostPortOK (host ++ ":" ++ FormatInt port).data = true := by
  have hN : ∀ c, isDigit c = false → c ≠ '-' → c ∉ (FormatInt port).data := by
    intro c hc hm hin
    rcases formatInt_chars port c hin with h | h
    · exact hm h
    · rw [hc] at h; exact Bool.false_ne_true h
  have e : (host ++ ":" ++ FormatInt port).data = host.data ++ ':' :: (FormatInt port).data := by
    simp
  rw [e]
  unfold splitHostPortOK
  rw [splitLast_append ':' _ _ (hN ':' (by decide) (by decide))]
  have hhead : (host.data ++ ':' :: (FormatInt port).data).head? ≠ some '[' := by
    cases hd : host.data with
    | nil => simp
    | cons a l =>
      simp only [List.cons_append, List.head?_cons, ne_eq, Option.some.injEq]
      intro ha
      apply h2
      rw [hd, ha]
      exact List.mem_cons_self _ _
  simp only [hhead, if_false, decide_eq_true_eq, Bool.decide_and, Bool.and_eq_true,
    List.mem_append, List.mem_cons, not_or]
  have hb1 := hN '[' (by decide) (by decide)
  have hb2 := hN ']' (by decide) (by decide)
  refine ⟨h1, ⟨h2, by decide, hb1⟩, ⟨h3, by decide, hb2⟩⟩

/-- C6, counterexample: a user that contains ':' is not recovered. For the user
"dolt:admin" and no password the DSN is `dolt:admin@tcp(127.0.0.1:3307)/beads_bb?parseTime=true`,
which the driver parses as user "dolt" with password "admin". -/
theorem buildServerDSN_user_colon_not_recovered :
    (buildServerConfig (fun _ => "")
        { DoltDatabase := "beads_bb", ServerUser := "dolt:admin" }).User = "dolt:admin" ∧
    (buildServerConfig (fun _ => "")
        { DoltDatabase := "beads_bb", ServerUser := "dolt:admin" }).Passwd = "" ∧
    buildServerDSN (fun _ => "") { DoltDatabase := "beads_bb", ServerUser := "dolt:admin" } =
      "dolt:admin@tcp(127.0.0.1:3307)/beads_bb?parseTime=true" ∧
    ParseDSN (buildServerDSN (fun _ => "")
        { DoltDatabase := "beads_bb", ServerUser := "dolt:admin" }) =
      Except.ok
        { User := "dolt", Passwd := "admin", Net := "tcp", Addr := "127.0.0.1:3307",
          DBName := "beads_bb", ParseTime := true } := by
  refine ⟨by decide, by decide, by decide, by decide⟩

/-- C6, amended: for every descriptor and every environment password, when the user
contains no ':', the host contains no '@' and host:port is an address that
`net.SplitHostPort` accepts, the driver's DSN parser recovers from the DSN of
`buildServerDSN` exactly the user, the password, the address and the database name that the
builder put into the configuration (the whole configuration, in fact); password and
database name may contain any character. -/
theorem buildServerDSN_parses_back (getenv : String → String) (m : Metadata)
    (hu : ':' ∉ m.ServerUser.data) (hh : '@' ∉ m.ServerHost.data)
    (hs : splitHostPortOK (buildServerConfig getenv m).Addr.data = true) :
    ∃ cfg, ParseDSN (buildServerDSN getenv m) = Except.ok cfg ∧
      cfg.User = (buildServerConfig getenv m).User ∧
      cfg.Passwd = getenv "BEADS_DOLT_PASSWORD" ∧
      cfg.Addr = (buildServerConfig getenv m).Addr ∧
      cfg.DBName = m.DoltDatabase ∧
      cfg = buildServerConfig getenv m := by
  refine ⟨buildServerConfig getenv m, ?_, rfl, rfl, rfl, rfl, rfl⟩
  have hu0 : (if m.ServerUser = "" then "root" else m.ServerUser) ≠ "" := by
    split
    · decide
    · assumption
  have hu1 : ':' ∉ (if m.ServerUser = "" then "root" else m.ServerUser).data := by
    split
    · decide
    · exact hu
  have hh1 : '@' ∉ (if m.ServerHost = "" then "127.0.0.1" else m.ServerHost).data := by
    split
    · decide
    · exact hh
  have ha : '@' ∉ ((if m.ServerHost = "" then "127.0.0.1" else m.ServerHost) ++ ":" ++
      FormatInt (if m.ServerPort = 0 then 3307 else m.ServerPort)).data := by
    intro hm
    simp only [String.data_append, List.mem_append] at hm
    rcases hm with (h | h) | h
    · exact hh1 h
    · exact absurd h (by decide)
    · rcases formatInt_chars _ _ h with h' | h'
      · exact absurd h' (by decide)
      · exact absurd h' (by decide)
  have ha0 : (if m.ServerHost = "" then "127.0.0.1" else m.ServerHost) ++ ":" ++
      FormatInt (if m.ServerPort = 0 then 3307 else m.ServerPort) ≠ "" := by
    intro h2
    have := congrArg String.data h2
    simp at this
  exact parseDSN_formatDSN_tcp _ (getenv "BEADS_DOLT_PASSWORD") _ m.DoltDatabase hu0 hu1 ha ha0 hs

/-- Witness for C6: the server descriptor of the tests, with a password and a database
name full of separators. -/
theorem buildServerDSN_parses_back_witness :
    ∃ cfg, ParseDSN (buildServerDSN (fun _ => "p@ss/w:rd(1)?")
        { serverExample with DoltDatabase := "beads/fo?é" }) = Except.ok cfg ∧
      cfg.User = (buildServerConfig (fun _ => "p@ss/w:rd(1)?")
        { serverExample with DoltDatabase := "beads/fo?é" }).User ∧
      cfg.Passwd = (fun _ => "p@ss/w:rd(1)?") "BEADS_DOLT_PASSWORD" ∧
      cfg.Addr = (buildServerConfig (fun _ => "p@ss/w:rd(1)?")
        { serverExample with DoltDatabase := "beads/fo?é" }).Addr ∧
      cfg.DBName = Metadata.DoltDatabase { serverExample with DoltDatabase := "beads/fo?é" } ∧
      cfg = buildServerConfig (fun _ => "p@ss/w:rd(1)?")
        { serverExample with DoltDatabase := "beads/fo?é" } :=
  buildServerDSN_parses_back (fun _ => "p@ss/w:rd(1)?")
    { serverExample with DoltDatabase := "beads/fo?é" } (by decide) (by decide) (by decide)

/-! ## Theorems: the fuel of the JSON scanner is enough -/

theorem consChar_some {c : Char} {p : Option (List Char × List Char)} {s r : List Char}
    (h : consChar c p = some (s, r)) : ∃ s', p = some (s', r) := by
  unfold consChar at h
  cases p with
  | none => simp at h
  | some q =>
    simp only [Option.map_some', Option.some.injEq, Prod.mk.injEq] at h
    exact ⟨q.1, by rw [← h.2]⟩

theorem flushPending_some {pd : Option Nat} {p : Option (List Char × List Char)}
    {s r : List Char} (h : flushPending pd p = some (s, r)) : ∃ s', p = some (s', r) := by
  unfold flushPending at h
  cases pd with
  | none => exact ⟨s, h⟩
  | some _ => exact consChar_some h

/-- A scanned string ends before the end of the input it was scanned from. -/
theorem scanStringFrom_shorter (n : Nat) : ∀ (cs : List Char) (pd : Option Nat)
    (s r : List Char), cs.length ≤ n → scanStringFrom pd cs = some (s, r) →
    r.length < cs.length := by
  induction n with
  | zero =>
    intro cs pd s r hn h
    have : cs = [] := List.length_eq_zero.mp (by omega)
    subst this
    rw [scanStringFrom.eq_def] at h
    simp at h
  | succ n ih =>
    intro cs pd s r hn h
    rw [scanStringFrom.eq_def] at h
    cases cs with
    | nil => simp at h
    | cons c cs =>
      simp only at h
      split at h
      · obtain ⟨_, h⟩ := flushPending_some h
        simp only [Option.some.injEq, Prod.mk.injEq] at h
        rw [← h.2]
        simp
      · split at h
        · cases cs with
          | nil => simp at h
          | cons e r0 =>
            simp only at h
            split at h
            · split at h
              · rename_i a b x y r1
                split at h
                · simp at h
                · split at h
                  · split at h
                    · obtain ⟨_, h⟩ := consChar_some h
                      have := ih r1 none _ r (by simp at hn ⊢; omega) h
                      simp; omega
                    · split at h
                      · obtain ⟨_, h⟩ := consChar_some h
                        have := ih r1 _ _ r (by simp at hn ⊢; omega) h
                        simp; omega
                      · obtain ⟨_, h⟩ := consChar_some h
                        obtain ⟨_, h⟩ := consChar_some h
                        have := ih r1 none _ r (by simp at hn ⊢; omega) h
                        simp; omega
                  · split at h
                    · have := ih r1 _ _ r (by simp at hn ⊢; omega) h
                      simp; omega
                    · obtain ⟨_, h⟩ := consChar_some h
                      have := ih r1 none _ r (by simp at hn ⊢; omega) h
                      simp; omega
              · simp at h
            · split at h
              · obtain ⟨_, h⟩ := flushPending_some h
                obtain ⟨_, h⟩ := consChar_some h
                have := ih r0 none _ r (by simp at hn ⊢; omega) h
                simp; omega
              · simp at h
        · split at h
          · simp at h
          · obtain ⟨_, h⟩ := flushPending_some h
            obtain ⟨_, h⟩ := consChar_some h
            have := ih cs none _ r (by simp at hn ⊢; omega) h
            simp; omega

theorem scanString_shorter {cs s r : List Char} (h : scanString cs = some (s, r)) :
    r.length < cs.length :=
  scanStringFrom_shorter cs.length cs none s r (Nat.le_refl _) h

theorem skipSpace_length (cs : List Char) : (skipSpace cs).length ≤ cs.length := by
  induction cs with
  | nil => simp [skipSpace]
  | cons c cs ih =>
    unfold skipSpace
    split
    · simp; omega
    · simp

theorem takeDigits_length (cs : List Char) : (takeDigits cs).2.length ≤ cs.length := by
  induction cs with
  | nil => simp [takeDigits]
  | cons c cs ih =>
    unfold takeDigits
    split
    · simp; omega
    · simp

theorem scanNumber_shorter {cs l r : List Char} (h : scanNumber cs = some (l, r)) :
    r.length < cs.length := by
  unfold scanNumber at h
  simp only at h
  split at h
  · simp at h
  · rename_i ip r1 hint
    split at h
    · simp at h
    · rename_i fp r2 hfrac
      split at h
      · simp at h
      · rename_i ep r3 hexp
        simp only [Option.some.injEq, Prod.mk.injEq] at h
        obtain ⟨-, h⟩ := h
        rw [← h]
        -- the integer part consumes a digit
        have h1 : ∀ xs : List Char, scanIntPart xs = some (ip, r1) → r1.length < xs.length := by
          intro xs hx
          unfold scanIntPart at hx
          cases xs with
          | nil => simp at hx
          | cons d t =>
            simp only at hx
            split at hx
            · simp only [Option.some.injEq, Prod.mk.injEq] at hx
              rw [← hx.2]; simp
            · split at hx
              · simp only [Option.some.injEq, Prod.mk.injEq] at hx
                rw [← hx.2]
                have := takeDigits_length t
                simp; omega
              · simp at hx
        have h2 : r2.length ≤ r1.length := by
          unfold scanFrac at hfrac
          cases r1 with
          | nil => simp at hfrac; rw [← hfrac.2]
          | cons c t =>
            simp only at hfrac
            split at hfrac
            · split at hfrac
              · simp at hfrac
              · simp only [Option.some.injEq, Prod.mk.injEq] at hfrac
                rw [← hfrac.2]
                have := takeDigits_length t
                simp; omega
            · simp only [Option.some.injEq, Prod.mk.injEq] at hfrac
              rw [← hfrac.2]
        have h3 : r3.length ≤ r2.length := by
          have hd : ∀ pre xs, scanExpDigits pre xs = some (ep, r3) → r3.length ≤ xs.length := by
            intro pre xs hx
            unfold scanExpDigits at hx
            split at hx
            · simp at hx
            · simp only [Option.some.injEq, Prod.mk.injEq] at hx
              rw [← hx.2]
              exact takeDigits_length xs
          unfold scanExp at hexp
          cases r2 with
          | nil => simp at hexp; rw [← hexp.2]
          | cons c t =>
            simp only at hexp
            split at hexp
            · cases t with
              | nil => simp at hexp
              | cons s t1 =>
                simp only at hexp
                split at hexp
                · have := hd _ _ hexp
                  simp; omega
                · have := hd _ _ hexp
                  simp at this ⊢; omega
            · simp only [Option.some.injEq, Prod.mk.injEq] at hexp
              rw [← hexp.2]
        have h0 := h1 _ hint
        have hsz : (match cs with
            | [] => (([] : List Char), ([] : List Char))
            | c :: r => if c = '-' then (['-'], r) else ([], c :: r)).2.length ≤ cs.length := by
          cases cs with
          | nil => simp
          | cons c t =>
            simp only
            split <;> simp
        omega

theorem scanLiteral_length {lit cs r : List Char} (h : scanLiteral lit cs = some r) :
    r.length ≤ cs.length := by
  unfold scanLiteral at h
  split at h
  · simp only [Option.some.injEq] at h
    rw [← h]
    simp
  · simp at h

theorem scanMembers_shorter (pv : List Char → Option (JVal × List Char))
    (hpv : ∀ cs v r, pv cs = some (v, r) → r.length < cs.length) (f : Nat) :
    ∀ (cs : List Char) (ms : List (List Char × JVal)) (r : List Char),
      scanMembers pv f cs = some (ms, r) → r.length < cs.length := by
  induction f with
  | zero => intro cs ms r h; simp [scanMembers] at h
  | succ f ih =>
    intro cs ms r h
    rw [scanMembers.eq_def] at h
    simp only at h
    split at h
    · simp at h
    · rename_i q r0
      split at h
      · split at h
        · simp at h
        · rename_i key r1 hkey
          have hk := scanString_shorter hkey
          split at h
          · simp at h
          · rename_i colon r2 hsk
            have hl1 := skipSpace_length r1
            rw [hsk] at hl1
            split at h
            · split at h
              · simp at h
              · rename_i v r3 hv
                have hl2 := hpv _ _ _ hv
                split at h
                · simp at h
                · rename_i sep r4 hsk2
                  have hl3 := skipSpace_length r3
                  rw [hsk2] at hl3
                  simp only [List.length_cons] at hl1 hl3 ⊢
                  split at h
                  · cases hm : scanMembers pv f (skipSpace r4) with
                    | none => rw [hm] at h; simp at h
                    | some p =>
                      rw [hm] at h
                      simp only [Option.map_some', Option.some.injEq, Prod.mk.injEq] at h
                      have := ih _ p.1 p.2 hm
                      have hl4 := skipSpace_length r4
                      rw [← h.2]
                      omega
                  · split at h
                    · simp only [Option.some.injEq, Prod.mk.injEq] at h
                      rw [← h.2]
                      omega
                    · simp at h
            · simp at h
      · simp at h

theorem scanElems_shorter (pv : List Char → Option (JVal × List Char))
    (hpv : ∀ cs v r, pv cs = some (v, r) → r.length < cs.length) (f : Nat) :
    ∀ (cs : List Char) (xs : List JVal) (r : List Char),
      scanElems pv f cs = some (xs, r) → r.length < cs.length := by
  induction f with
  | zero => intro cs xs r h; simp [scanElems] at h
  | succ f ih =>
    intro cs xs r h
    rw [scanElems.eq_def] at h
    simp only at h
    split at h
    · simp at h
    · rename_i sep r0 hsk
      have hl1 := skipSpace_length cs
      rw [hsk] at hl1
      simp only [List.length_cons] at hl1
      split at h
      · split at h
        · simp at h
        · rename_i v r1 hv
          have hl2 := hpv _ _ _ hv
          cases hm : scanElems pv f r1 with
          | none => rw [hm] at h; simp at h
          | some p =>
            rw [hm] at h
            simp only [Option.map_some', Option.some.injEq, Prod.mk.injEq] at h
            have := ih _ p.1 p.2 hm
            rw [← h.2]
            omega
      · split at h
        · simp only [Option.some.injEq, Prod.mk.injEq] at h
          rw [← h.2]
          omega
        · simp at h
/-- A scanned value ends before the end of the input it was scanned from. -/
theorem scanValue_shorter (fuel : Nat) : ∀ (depth : Nat) (cs : List Char) (v : JVal)
    (r : List Char), scanValue fuel depth cs = some (v, r) → r.length < cs.length := by
  induction fuel with
  | zero => intro depth cs v r h; simp [scanValue] at h
  | succ fuel ih =>
    intro depth cs v r h
    rw [scanValue.eq_def] at h
    simp only at h
    split at h
    · simp at h
    · rename_i c r0 hsk
      have hl0 := skipSpace_length cs
      rw [hsk] at hl0
      simp only [List.length_cons] at hl0
      split at h
      · cases hs : scanString r0 with
        | none => rw [hs] at h; simp at h
        | some p =>
          rw [hs] at h
          simp only [Option.map_some', Option.some.injEq, Prod.mk.injEq] at h
          have := scanString_shorter (s := p.1) (r := p.2) hs
          rw [← h.2]; omega
      · split at h
        · split at h
          · simp at h
          · split at h
            · simp at h
            · rename_i c1 r1 hsk1
              have hl1 := skipSpace_length r0
              rw [hsk1] at hl1
              simp only [List.length_cons] at hl1
              split at h
              · simp only [Option.some.injEq, Prod.mk.injEq] at h
                rw [← h.2]; omega
              · cases hm : scanMembers (scanValue fuel (depth + 1)) fuel (c1 :: r1) with
                | none => rw [hm] at h; simp at h
                | some p =>
                  rw [hm] at h
                  simp only [Option.map_some', Option.some.injEq, Prod.mk.injEq] at h
                  have := scanMembers_shorter _ (ih (depth + 1)) fuel _ p.1 p.2 hm
                  simp only [List.length_cons] at this
                  rw [← h.2]; omega
        · split at h
          · split at h
            · simp at h
            · split at h
              · simp at h
              · rename_i c1 r1 hsk1
                have hl1 := skipSpace_length r0
                rw [hsk1] at hl1
                simp only [List.length_cons] at hl1
                split at h
                · simp only [Option.some.injEq, Prod.mk.injEq] at h
                  rw [← h.2]; omega
                · split at h
                  · simp at h
                  · rename_i v1 r2 hv1
                    have hl2 := ih _ _ _ _ hv1
                    simp only [List.length_cons] at hl2
                    cases hm : scanElems (scanValue fuel (depth + 1)) fuel r2 with
                    | none => rw [hm] at h; simp at h
                    | some p =>
                      rw [hm] at h
                      simp only [Option.map_some', Option.some.injEq, Prod.mk.injEq] at h
                      have := scanElems_shorter _ (ih (depth + 1)) fuel _ p.1 p.2 hm
                      rw [← h.2]; omega
          · have hlit : ∀ lit (b : JVal),
                (scanLiteral lit r0).map (fun r1 => (b, r1)) = some (v, r) →
                r.length < cs.length := by
              intro lit b hh
              cases hs : scanLiteral lit r0 with
              | none => rw [hs] at hh; simp at hh
              | some p =>
                rw [hs] at hh
                simp only [Option.map_some', Option.some.injEq, Prod.mk.injEq] at hh
                have := scanLiteral_length hs
                rw [← hh.2]; omega
            split at h
            · exact hlit _ _ h
            · split at h
              · exact hlit _ _ h
              · split at h
                · exact hlit _ _ h
                · split at h
                  · cases hs : scanNumber (c :: r0) with
                    | none => rw [hs] at h; simp at h
                    | some p =>
                      rw [hs] at h
                      simp only [Option.map_some', Option.some.injEq, Prod.mk.injEq] at h
                      have := scanNumber_shorter (l := p.1) (r := p.2) hs
                      simp only [List.length_cons] at this
                      rw [← h.2]; omega
                  · simp at h
theorem scanMembers_fuel (pv pv' : List Char → Option (JVal × List Char)) (n : Nat)
    (hag : ∀ x : List Char, x.length < n → pv x = pv' x)
    (hpv : ∀ cs v r, pv cs = some (v, r) → r.length < cs.length) (f : Nat) :
    ∀ (f' : Nat) (cs : List Char), cs.length ≤ n → cs.length < f → cs.length < f' →
      scanMembers pv f cs = scanMembers pv' f' cs := by
  induction f with
  | zero => intro f' cs _ h _; omega
  | succ f ih =>
    intro f' cs hn hf hf'
    cases f' with
    | zero => omega
    | succ g =>
      conv_lhs => rw [scanMembers.eq_def]
      conv_rhs => rw [scanMembers.eq_def]
      simp only
      cases cs with
      | nil => rfl
      | cons q r0 =>
        simp only [List.length_cons] at hn hf hf'
        simp only
        by_cases hq : q = '"'
        · simp only [hq, if_true]
          cases hs : scanString r0 with
          | none => rfl
          | some p =>
            obtain ⟨key, r1⟩ := p
            have hk := scanString_shorter hs
            simp only
            have hl1 := skipSpace_length r1
            cases hsk : skipSpace r1 with
            | nil => rfl
            | cons colon r2 =>
              rw [hsk] at hl1
              simp only [List.length_cons] at hl1
              simp only
              by_cases hc : colon = ':'
              · simp only [hc, if_true]
                have hpe : pv r2 = pv' r2 := hag r2 (by omega)
                rw [← hpe]
                cases hv : pv r2 with
                | none => rfl
                | some p2 =>
                  obtain ⟨v, r3⟩ := p2
                  have hl2 := hpv _ _ _ hv
                  simp only
                  have hl3 := skipSpace_length r3
                  cases hsk2 : skipSpace r3 with
                  | nil => rfl
                  | cons sep r4 =>
                    rw [hsk2] at hl3
                    simp only [List.length_cons] at hl3
                    simp only
                    by_cases hsep : sep = ','
                    · simp only [hsep, if_true]
                      have hl4 := skipSpace_length r4
                      rw [ih g (skipSpace r4) (by omega) (by omega) (by omega)]
                    · simp only [hsep, if_false]
              · simp only [hc, if_false]
        · simp only [hq, if_false]

theorem scanElems_fuel (pv pv' : List Char → Option (JVal × List Char)) (n : Nat)
    (hag : ∀ x : List Char, x.length < n → pv x = pv' x)
    (hpv : ∀ cs v r, pv cs = some (v, r) → r.length < cs.length) (f : Nat) :
    ∀ (f' : Nat) (cs : List Char), cs.length ≤ n → cs.length < f → cs.length < f' →
      scanElems pv f cs = scanElems pv' f' cs := by
  induction f with
  | zero => intro f' cs _ h _; omega
  | succ f ih =>
    intro f' cs hn hf hf'
    cases f' with
    | zero => omega
    | succ g =>
      conv_lhs => rw [scanElems.eq_def]
      conv_rhs => rw [scanElems.eq_def]
      simp only
      have hl0 := skipSpace_length cs
      cases hsk : skipSpace cs with
      | nil => rfl
      | cons sep r0 =>
        rw [hsk] at hl0
        simp only [List.length_cons] at hl0
        simp only
        by_cases hsep : sep = ','
        · simp only [hsep, if_true]
          have hpe : pv r0 = pv' r0 := hag r0 (by omega)
          rw [← hpe]
          cases hv : pv r0 with
          | none => rfl
          | some p =>
            obtain ⟨v, r1⟩ := p
            have hl1 := hpv _ _ _ hv
            simp only
            rw [ih g r1 (by omega) (by omega) (by omega)]
        · simp only [hsep, if_false]
/-- Once the fuel exceeds the length of the input, more fuel changes nothing. -/
theorem scanValue_fuel (fuel : Nat) : ∀ (fuel' depth : Nat) (cs : List Char),
    cs.length < fuel → cs.length < fuel' →
    scanValue fuel depth cs = scanValue fuel' depth cs := by
  induction fuel with
  | zero => intro fuel' depth cs h _; omega
  | succ fuel ih =>
    intro fuel' depth cs hf hf'
    cases fuel' with
    | zero => omega
    | succ g =>
      conv_lhs => rw [scanValue.eq_def]
      conv_rhs => rw [scanValue.eq_def]
      simp only
      have hl0 := skipSpace_length cs
      cases hsk : skipSpace cs with
      | nil => rfl
      | cons c r0 =>
        rw [hsk] at hl0
        simp only [List.length_cons] at hl0
        simp only
        have hag : ∀ x : List Char, x.length < r0.length + 1 →
            scanValue fuel (depth + 1) x = scanValue g (depth + 1) x := by
          intro x hx
          exact ih g (depth + 1) x (by omega) (by omega)
        have hpv := scanValue_shorter fuel (depth + 1)
        have hl1 := skipSpace_length r0
        by_cases h1 : c = '"'
        · simp only [h1, if_true]
        · simp only [h1, if_false]
          by_cases h2 : c = '\x7b'
          · simp only [h2, if_true]
            split
            · rfl
            · cases hsk1 : skipSpace r0 with
              | nil => rfl
              | cons c1 r1 =>
                rw [hsk1] at hl1
                simp only [List.length_cons] at hl1
                simp only
                split
                · rfl
                · rw [scanMembers_fuel _ _ (r0.length + 1) hag hpv fuel g (c1 :: r1)
                    (by simp only [List.length_cons]; omega)
                    (by simp only [List.length_cons]; omega)
                    (by simp only [List.length_cons]; omega)]
          · simp only [h2, if_false]
            by_cases h3 : c = '['
            · simp only [h3, if_true]
              split
              · rfl
              · cases hsk1 : skipSpace r0 with
                | nil => rfl
                | cons c1 r1 =>
                  rw [hsk1] at hl1
                  simp only [List.length_cons] at hl1
                  simp only
                  split
                  · rfl
                  · have hv1 := hag (c1 :: r1) (by simp only [List.length_cons]; omega)
                    rw [← hv1]
                    cases hv : scanValue fuel (depth + 1) (c1 :: r1) with
                    | none => rfl
                    | some p =>
                      obtain ⟨v, r2⟩ := p
                      have hl2 := hpv _ _ _ hv
                      simp only [List.length_cons] at hl2
                      simp only
                      rw [scanElems_fuel _ _ (r0.length + 1) hag hpv fuel g r2
                        (by omega) (by omega) (by omega)]
            · simp only [h3, if_false]

/-- The fuel `parseJSON` gives the scanner is enough: any larger fuel gives the same
result, so a document that does not parse has a syntax error. -/
theorem parseJSON_fuel (data : String) (fuel : Nat) (h : data.length < fuel) :
    scanValue fuel 0 data.data = scanValue (data.length + 1) 0 data.data :=
  scanValue_fuel fuel (data.length + 1) 0 data.data h (Nat.lt_succ_self _)

/-! ## Theorems: the DSN builder is a function of descriptor and password -/

/-- C11: `buildServerDSN` is deterministic in its inputs: for the same descriptor, two
environments that give `BEADS_DOLT_PASSWORD` the same value yield the same connection
string, character for character and byte for byte; nothing else of the environment is
read, so the result is the one obtained when every variable holds the password. -/
theorem buildServerDSN_deterministic (env₁ env₂ : String → String) (m : Metadata)
    (h : env₁ "BEADS_DOLT_PASSWORD" = env₂ "BEADS_DOLT_PASSWORD") :
    buildServerDSN env₁ m = buildServerDSN env₂ m ∧
    (buildServerDSN env₁ m).data.flatMap utf8Bytes =
      (buildServerDSN env₂ m).data.flatMap utf8Bytes ∧
    buildServerDSN env₁ m = buildServerDSN (fun _ => env₁ "BEADS_DOLT_PASSWORD") m := by
  have e : buildServerDSN env₁ m = buildServerDSN env₂ m := by
    unfold buildServerDSN buildServerConfig
    rw [h]
  exact ⟨e, by rw [e], rfl⟩

/-- Witness for C11: two environments with the same password and different other
variables. -/
theorem buildServerDSN_deterministic_witness :
    buildServerDSN (fun name => if name = "BEADS_DOLT_PASSWORD" then "s3cr:t" else "/home/a")
        serverExample =
      buildServerDSN (fun name => if name = "BEADS_DOLT_PASSWORD" then "s3cr:t" else "/home/b")
        serverExample ∧
    (buildServerDSN (fun name => if name = "BEADS_DOLT_PASSWORD" then "s3cr:t" else "/home/a")
        serverExample).data.flatMap utf8Bytes =
      (buildServerDSN (fun name => if name = "BEADS_DOLT_PASSWORD" then "s3cr:t" else "/home/b")
        serverExample).data.flatMap utf8Bytes ∧
    buildServerDSN (fun name => if name = "BEADS_DOLT_PASSWORD" then "s3cr:t" else "/home/a")
        serverExample =
      buildServerDSN
        (fun _ => (fun name => if name = "BEADS_DOLT_PASSWORD" then "s3cr:t" else "/home/a")
          "BEADS_DOLT_PASSWORD")
        serverExample :=
  buildServerDSN_deterministic
    (fun name => if name = "BEADS_DOLT_PASSWORD" then "s3cr:t" else "/home/a")
    (fun name => if name = "BEADS_DOLT_PASSWORD" then "s3cr:t" else "/home/b")
    serverExample (by decide)

end Dolt

namespace Discovery

/-! ## Theorems: active models -/

/-- The comparison of the model is the lexicographic order of the characters. -/
theorem lessChars_iff : ∀ (a b : List Char), lessChars a b = true ↔ a < b
  | [], [] => by
    simp only [lessChars, Bool.false_eq_true, false_iff]
    intro h; cases h
  | a :: as, [] => by
    simp only [lessChars, Bool.false_eq_true, false_iff]
    intro h; cases h
  | [], b :: bs => by
    simp only [lessChars, true_iff]
    exact List.nil_lt_cons b bs
  | a :: as, b :: bs => by
    have ih := lessChars_iff as bs
    unfold lessChars
    by_cases h1 : a < b
    · simp only [h1, if_true, true_iff]
      exact List.Lex.rel h1
    · by_cases h2 : b < a
      · simp only [h1, h2, if_true, if_false, Bool.false_eq_true, false_iff]
        intro h
        cases h with
        | cons h => exact lt_irrefl a h2
        | rel h => exact h1 h
      · have hab : a = b := le_antisymm (not_lt.mp h2) (not_lt.mp h1)
        subst hab
        simp only [h1, if_false, ih]
        exact (List.Lex.cons_iff (r := (· < ·))).symm

theorem less_iff (a b : String) : Less a b = true ↔ a < b := by
  unfold Less
  rw [lessChars_iff, String.lt_iff_toList_lt]
  rfl

/-- The relation `sort.Strings` sorts by is `≤` on strings. -/
theorem notLess_iff (a b : String) : Less b a = false ↔ a ≤ b := by
  rw [← not_lt, ← less_iff]
  cases Less b a <;> simp

theorem sortStrings_perm (x : List String) : (sortStrings x).Perm x :=
  List.perm_insertionSort _ x

theorem sortStrings_sorted (x : List String) : List.Sorted (· ≤ ·) (sortStrings x) := by
  have hT : IsTotal String (fun a b => Less b a = false) :=
    ⟨fun a b => by
      rw [notLess_iff, notLess_iff]
      exact le_total a b⟩
  have hR : IsTrans String (fun a b => Less b a = false) :=
    ⟨fun a b c => by
      rw [notLess_iff, notLess_iff, notLess_iff]
      exact le_trans⟩
  have h := List.sorted_insertionSort (fun a b : String => Less b a = false) x
  unfold sortStrings
  exact List.Pairwise.imp (fun {a b} hab => (notLess_iff a b).mp hab) h

/-- Sorting forgets the order of its input. -/
theorem sortStrings_congr {x y : List String} (h : x.Perm y) : sortStrings x = sortStrings y :=
  List.eq_of_perm_of_sorted
    (((sortStrings_perm x).trans h).trans (sortStrings_perm y).symm)
    (sortStrings_sorted x) (sortStrings_sorted y)

theorem appendModels_eq (p : Provider) (acc : List String) :
    appendModels p acc = acc ++ p.Models.map fun m => p.ID ++ "/" ++ m.2.ID := by
  unfold appendModels
  generalize p.Models = ms
  induction ms generalizing acc with
  | nil => simp
  | cons m ms ih => simp [List.foldl_cons, ih]

/-- The two loops of `GetActiveModels` collect the strings of the models of the active
providers, provider by provider. -/
theorem collect_eq (getenv : String → String) (ps : List (String × Provider))
    (acc : List String) :
    ps.foldl
      (fun activeModels p =>
        if isProviderActive getenv p.2 then appendModels p.2 activeModels else activeModels)
      acc =
    acc ++ (ps.filter fun p => isProviderActive getenv p.2).flatMap
      fun p => p.2.Models.map fun m => p.2.ID ++ "/" ++ m.2.ID := by
  induction ps generalizing acc with
  | nil => simp
  | cons p ps ih =>
    rw [List.foldl_cons, ih]
    by_cases h : isProviderActive getenv p.2 = true
    · simp [h, appendModels_eq, List.filter_cons]
    · simp [h, List.filter_cons]

theorem allSet_iff (getenv : String → String) (vars : List String) :
    allSet getenv vars = true ↔ ∀ v ∈ vars, getenv v ≠ "" := by
  induction vars with
  | nil => simp [allSet]
  | cons v vs ih =>
    unfold allSet
    by_cases h : getenv v = ""
    · simp [h]
    · simp [h, ih]

theorem isProviderActive_iff (getenv : String → String) (p : Provider) :
    isProviderActive getenv p = true ↔ p.Env ≠ [] ∧ ∀ v ∈ p.Env, getenv v ≠ "" := by
  unfold isProviderActive
  by_cases h : p.Env.length = 0
  · have : p.Env = [] := List.length_eq_zero.mp h
    simp [this]
  · have : p.Env ≠ [] := fun e => h (by rw [e]; rfl)
    simp [h, this, allSet_iff]

/-- C12: for every registry and environment, `GetActiveModels` returns, in ascending
string order, exactly the strings "provider ID/model ID" of the models of the active
providers, one per model (so its length is the total number of models of the active
providers); a provider is active exactly when its `Env` list is not empty and every variable
in it has a non-empty value. Every string of the result comes from a model of an active
provider, inactive providers contribute nothing (dropping them from the registry leaves the
result as it is), and the result does not depend on the order in which the maps are
visited. -/
theorem getActiveModels_spec (getenv : String → String) (r : Registry) :
    List.Sorted (· ≤ ·) (r.GetActiveModels getenv) ∧
    (r.GetActiveModels getenv).Perm
      ((r.Providers.filter fun p => isProviderActive getenv p.2).flatMap
        fun p => p.2.Models.map fun m => p.2.ID ++ "/" ++ m.2.ID) ∧
    (r.GetActiveModels getenv).length =
      ((r.Providers.filter fun p => isProviderActive getenv p.2).map
        fun p => p.2.Models.length).sum ∧
    (∀ s, s ∈ r.GetActiveModels getenv ↔
      ∃ p ∈ r.Providers, isProviderActive getenv p.2 = true ∧
        ∃ m ∈ p.2.Models, s = p.2.ID ++ "/" ++ m.2.ID) ∧
    (∀ p : Provider, isProviderActive getenv p = true ↔
      p.Env ≠ [] ∧ ∀ v ∈ p.Env, getenv v ≠ "") ∧
    Registry.GetActiveModels getenv
      { r with Providers := r.Providers.filter fun p => isProviderActive getenv p.2 } =
      r.GetActiveModels getenv ∧
    (∀ r' : Registry,
      ((r'.Providers.filter fun p => isProviderActive getenv p.2).flatMap
        fun p => p.2.Models.map fun m => p.2.ID ++ "/" ++ m.2.ID).Perm
      ((r.Providers.filter fun p => isProviderActive getenv p.2).flatMap
        fun p => p.2.Models.map fun m => p.2.ID ++ "/" ++ m.2.ID) →
      r'.GetActiveModels getenv = r.GetActiveModels getenv) ∧
    (∀ r' : Registry, r'.Providers.Perm r.Providers →
      r'.GetActiveModels getenv = r.GetActiveModels getenv) := by
  have hdef : ∀ q : Registry, q.GetActiveModels getenv = sortStrings
      ((q.Providers.filter fun p => isProviderActive getenv p.2).flatMap
        fun p => p.2.Models.map fun m => p.2.ID ++ "/" ++ m.2.ID) := by
    intro q
    unfold Registry.GetActiveModels
    rw [collect_eq, List.nil_append]
  have hperm := sortStrings_perm
      ((r.Providers.filter fun p => isProviderActive getenv p.2).flatMap
        fun p => p.2.Models.map fun m => p.2.ID ++ "/" ++ m.2.ID)
  refine ⟨?_, ?_, ?_, ?_, ?_, ?_, ?_, ?_⟩
  · rw [hdef]; exact sortStrings_sorted _
  · rw [hdef]; exact hperm
  · rw [hdef, hperm.length_eq, List.length_flatMap]
    simp [Function.comp_def]
  · intro s
    rw [hdef, hperm.mem_iff]
    simp only [List.mem_flatMap, List.mem_filter, List.mem_map]
    constructor
    · rintro ⟨p, ⟨hp, ha⟩, m, hm, hs⟩
      exact ⟨p, hp, ha, m, hm, hs.symm⟩
    · rintro ⟨p, hp, ha, m, hm, hs⟩
      exact ⟨p, ⟨hp, ha⟩, m, hm, hs.symm⟩
  · exact isProviderActive_iff getenv
  · rw [hdef, hdef]
    simp only [List.filter_filter, Bool.and_self]
  · intro r' h
    rw [hdef, hdef]
    exact sortStrings_congr h
  · intro r' h
    rw [hdef, hdef]
    exact sortStrings_congr ((h.filter _).flatMap_right _)

/-- Witness for C12: the registry of `TestGetActiveModels` with only `P1_KEY` set, and the
same registry with its providers visited in the other order. -/
theorem getActiveModels_spec_witness :
    Registry.GetActiveModels testEnv
        { testRegistry with Providers := testRegistry.Providers.reverse } =
      testRegistry.GetActiveModels testEnv ∧
    testRegistry.GetActiveModels testEnv = ["p1/m0", "p1/m1"] :=
  ⟨(getActiveModels_spec testEnv testRegistry).2.2.2.2.2.2.2
      { testRegistry with Providers := testRegistry.Providers.reverse }
      (List.reverse_perm _),
   by decide⟩

end Discovery
